import Mathlib

/-! go-router: route matching and request dispatch.

A shallow embedding of `router.go` (package `gorouter`): route registration
(`AddRoute`), the matching helpers (`isMatchPath`, `isMethodMatch`) and the
dispatch entry point (`handle`), followed by theorems about them.

Modelling conventions.

* A Go `string` is modelled by the list of its runes (`Str`); the strings handled
  here are taken to be valid UTF-8.  All byte-level operations of the source use
  ASCII cutsets and separators (`"/"`, `":"`, `" "`), which act rune-wise on valid
  UTF-8.
* `map[string]string` is modelled by an association list with unique keys.
* A run-time panic (index out of range) is modelled by `none`.
* Effects of `handle` (log lines, response writer, handler invocation) are
  passed explicitly through a `World` value.
-/

namespace GoRouter

/-- A Go string, as the list of its runes. -/
abbrev Str := List Char

/-! ## The `strings` functions used by the router -/

/-- Go `strings.TrimRight(s, cutset)` for a one-rune cutset: all trailing
occurrences of `c` are removed. -/
def trimRight (s : Str) (c : Char) : Str :=
  (s.reverse.dropWhile (fun x => x == c)).reverse

/-- Go `strings.TrimLeft(s, cutset)` for a one-rune cutset. -/
def trimLeft (s : Str) (c : Char) : Str :=
  s.dropWhile (fun x => x == c)

/-- Go `strings.Trim(s, cutset)` for a one-rune cutset: leading and trailing
occurrences of `c` are removed. -/
def trim (s : Str) (c : Char) : Str :=
  trimRight (trimLeft s c) c

/-- Go `strings.Split(s, sep)` for a one-rune separator: the pieces of `s`
between the occurrences of `sep`; never empty (`Split("", "/")` is `[""]`). -/
def split : Str → Char → List Str
  | [], _ => [[]]
  | x :: xs, sep =>
    if x = sep then [] :: split xs sep
    else
      match split xs sep with
      | [] => [[x]]
      | piece :: rest => (x :: piece) :: rest

/-- Go `strings.HasPrefix(s, p)` for a one-rune prefix. -/
def hasPrefix : Str → Char → Bool
  | [], _ => false
  | x :: _, p => x == p

/-- Go `strings.TrimPrefix(s, p)` for a one-rune prefix: `s` without one
leading `p`, or `s` itself when it does not start with `p`. -/
def trimPrefix : Str → Char → Str
  | [], _ => []
  | x :: xs, p => if x = p then xs else x :: xs

/-- One rune pair of Go `strings.EqualFold`.  Equal runes match; otherwise the
pair is ordered (`lo < hi`), and when `hi` is ASCII (below `utf8.RuneSelf`) the
pair matches exactly when `lo` is an upper-case ASCII letter and `hi` its
lower-case form.  For a non-ASCII `hi` the source walks the orbit of
`unicode.SimpleFold` from `lo`; the Unicode tables are not part of the
repository, and the outcome of that walk is the parameter `foldOrbit lo hi`. -/
def runeEqualFold (foldOrbit : Char → Char → Bool) (sr tr : Char) : Bool :=
  if tr = sr then true
  else
    let lo := if tr.toNat < sr.toNat then tr else sr
    let hi := if tr.toNat < sr.toNat then sr else tr
    if hi.toNat < 0x80 then
      decide (65 ≤ lo.toNat ∧ lo.toNat ≤ 90 ∧ hi.toNat = lo.toNat + 32)
    else foldOrbit lo hi

/-- Go `strings.EqualFold(s, t)`: the two strings have the same number of
runes and agree rune by rune under simple case folding. -/
def equalFold (foldOrbit : Char → Char → Bool) : Str → Str → Bool
  | [], [] => true
  | s :: ss, t :: ts => runeEqualFold foldOrbit s t && equalFold foldOrbit ss ts
  | _, _ => false

/-- A fold-orbit table that relates no two distinct runes: with it `equalFold`
is Go's `EqualFold` on ASCII strings, where the Unicode tables are never
consulted. -/
def asciiOrbit : Char → Char → Bool := fun _ _ => false

/-! ## Parameter maps (`map[string]string`) -/

/-- A Go `map[string]string`: an association list whose keys are unique. -/
abbrev ParamMap := List (Str × Str)

/-- The assignment `m[k] = v`: any entry under `k` is replaced. -/
def mapSet (m : ParamMap) (k v : Str) : ParamMap :=
  m.filter (fun e => !(e.1 == k)) ++ [(k, v)]

/-- The lookup `m[k]`, with `none` for an absent key. -/
def mapGet : ParamMap → Str → Option Str
  | [], _ => none
  | (k', v) :: m, k => if k' = k then some v else mapGet m k

/-! ## Routes and the router -/

/-- The struct `routeConfig`; `H` is the type of handler references. -/
structure routeConfig (H : Type) where
  httpMethod : Str
  path : Str
  pathSegments : List Str
  handler : H

/-- The struct `router`, reduced to its route table (the logger and the
application environment play no part in matching). -/
structure router (H : Type) where
  routes : List (routeConfig H)

/-- The route table of `NewRouter`: empty. -/
def NewRouter {H : Type} : router H := { routes := [] }

/-- The method `router.AddRoute`: appends a route whose segments are the path,
trailing slashes trimmed, split on `/`. -/
def AddRoute {H : Type} (r : router H) (method : Str) (path : Str) (handler : H) : router H :=
  { routes := r.routes ++
      [{ httpMethod := method
         path := path
         pathSegments := split (trimRight path '/') '/'
         handler := handler }] }

/-! ## Requests, responses and the effects of dispatch -/

/-- The values `handle` stores in the request context, under the keys
`contextKey.PathParam`, `contextKey.Route` and `contextKey.TraceId`. -/
structure Context (H : Type) where
  pathParam : Option ParamMap
  route : Option (routeConfig H)
  traceId : Option Str

/-- The part of `url.URL` the router reads: the decoded path, and the text
that formatting with `%s` prints. -/
structure URL where
  Path : Str
  text : Str

/-- The part of `http.Request` the router reads. -/
structure Request (H : Type) where
  Method : Str
  URL : URL
  ctx : Context H

/-- A response sink in the style of `httptest.ResponseRecorder`: headers in the
order they were added, the status code once written, and the body. -/
structure ResponseWriter where
  header : List (Str × Str)
  status : Option Nat
  body : Str

/-- The call `respWriter.Header().Add(key, value)`. -/
def ResponseWriter.headerAdd (w : ResponseWriter) (key value : Str) : ResponseWriter :=
  { w with header := w.header ++ [(key, value)] }

/-- The call `respWriter.WriteHeader(code)`: the first status written stays. -/
def ResponseWriter.WriteHeader (w : ResponseWriter) (code : Nat) : ResponseWriter :=
  match w.status with
  | some _ => w
  | none => { w with status := some code }

/-- The values of the header `key`, in the order they were added. -/
def ResponseWriter.headerValues (w : ResponseWriter) (key : Str) : List Str :=
  (w.header.filter (fun e => e.1 == key)).map Prod.snd

/-- A response writer nothing has been written to. -/
def newRecorder : ResponseWriter := { header := [], status := none, body := [] }

/-- What a call of `handle` leaves behind: the response writer, the lines it
printed on the logger, and the handler invocations it made. -/
structure World (H : Type) where
  respWriter : ResponseWriter
  logged : List Str
  invoked : List (H × Request H)

/-! ## Matching -/

/-- The function `isMethodMatch`. -/
def isMethodMatch {H : Type} (foldOrbit : Char → Char → Bool) (req : Request H)
    (route : routeConfig H) : Bool :=
  equalFold foldOrbit req.Method route.httpMethod

/-- The `for` loop of `isMatchPath` from index `i` on.  The two lists are
`requestSegments[i:]` and `routeSegments[i:]`; the result is the final
`(totalMatch, paramMap)`, or `none` when `routeSegments[i]` is out of range. -/
def isMatchPathLoop (foldOrbit : Char → Char → Bool) :
    List Str → List Str → Nat → ParamMap → Option (Nat × ParamMap)
  | [], _, totalMatch, paramMap => some (totalMatch, paramMap)
  | _ :: _, [], _, _ => none
  | requestSegment :: requestRest, routeSegment :: routeRest, totalMatch, paramMap =>
    let isParam := hasPrefix routeSegment ':'
    if isParam && decide ((trim requestSegment ' ').length > 0) then
      isMatchPathLoop foldOrbit requestRest routeRest (totalMatch + 1)
        (mapSet paramMap (trimPrefix routeSegment ':') requestSegment)
    else if equalFold foldOrbit routeSegment requestSegment then
      isMatchPathLoop foldOrbit requestRest routeRest (totalMatch + 1) paramMap
    else
      some (totalMatch, paramMap)

/-- The function `isMatchPath`; `none` stands for the index-out-of-range panic. -/
def isMatchPath (foldOrbit : Char → Char → Bool) (requestSegments routeSegments : List Str) :
    Option (Bool × ParamMap) :=
  match isMatchPathLoop foldOrbit requestSegments routeSegments 0 [] with
  | none => none
  | some (totalMatch, paramMap) => some (totalMatch == routeSegments.length, paramMap)

/-- The outcome of the scan in `handle`: the route `targetRoute` points to,
its index in the table, and `paramMapCtx`. -/
structure Target (H : Type) where
  index : Nat
  route : routeConfig H
  paramMap : ParamMap

/-- The `for` loop of `handle` over `r.routes[idx:]`: `some none` when the loop
ends with `targetRoute == nil`, `none` when `isMatchPath` panics. -/
def scanRoutes {H : Type} (foldOrbit : Char → Char → Bool) (req : Request H)
    (requestSegment : List Str) : List (routeConfig H) → Nat → Option (Option (Target H))
  | [], _ => some none
  | route :: rest, idx =>
    if route.pathSegments.length != requestSegment.length then
      scanRoutes foldOrbit req requestSegment rest (idx + 1)
    else
      match isMatchPath foldOrbit requestSegment route.pathSegments with
      | none => none
      | some (isPathMatch, paramMap) =>
        if isPathMatch && isMethodMatch foldOrbit req route then
          some (some { index := idx, route := route, paramMap := paramMap })
        else
          scanRoutes foldOrbit req requestSegment rest (idx + 1)

/-- The segments of a request path, as computed at the top of `handle`. -/
def requestSegments (path : Str) : List Str :=
  split (trimRight path '/') '/'

/-- The first half of `handle`: the route selected for a request. -/
def selectRoute {H : Type} (foldOrbit : Char → Char → Bool) (r : router H) (req : Request H) :
    Option (Option (Target H)) :=
  scanRoutes foldOrbit req (requestSegments req.URL.Path) r.routes 0

/-- The line `handle` logs for a matched request. -/
def routeLogLine {H : Type} (traceId : Str) (req : Request H) : Str :=
  "[trace-id=".toList ++ traceId ++ "] Route: ".toList ++ req.Method ++ " ".toList ++
    req.URL.text ++ "\n".toList

/-- The line `handle` logs when no route matches. -/
def notFoundLogLine {H : Type} (req : Request H) : Str :=
  "Route not found: ".toList ++ req.Method ++ " ".toList ++ req.URL.text ++ "\n".toList

/-- The method `router.handle`.  `exec` runs a handler on a response writer and
a request; `traceId` is the value `uuid.NewString()` returns for this request.
`none` stands for a panic in the matching path. -/
def handle {H : Type} (foldOrbit : Char → Char → Bool)
    (exec : H → ResponseWriter → Request H → ResponseWriter)
    (r : router H) (traceId : Str) (respWriter : ResponseWriter) (req : Request H) :
    Option (World H) :=
  match selectRoute foldOrbit r req with
  | none => none
  | some (some target) =>
    let ctx : Context H :=
      { pathParam := some target.paramMap, route := some target.route, traceId := some traceId }
    let req' : Request H := { req with ctx := ctx }
    some { respWriter := exec target.route.handler
             (respWriter.headerAdd "x-trace-id".toList traceId) req'
           logged := [routeLogLine traceId req]
           invoked := [(target.route.handler, req')] }
  | some none =>
    some { respWriter := respWriter.WriteHeader 404
           logged := [notFoundLogLine req]
           invoked := [] }

/-! ## Notions used to state the properties -/

/-- A request segment that `strings.Trim(_, " ")` leaves non-empty. -/
def nonBlank (requestSegment : Str) : Bool :=
  decide ((trim requestSegment ' ').length > 0)

/-- The condition under which one iteration of the loop of `isMatchPath`
increments `totalMatch`. -/
def segmentMatches (foldOrbit : Char → Char → Bool) (routeSegment requestSegment : Str) : Bool :=
  (hasPrefix routeSegment ':' && nonBlank requestSegment) ||
    equalFold foldOrbit routeSegment requestSegment

/-- The effect of one matching iteration on `paramMap`; the pair is
`(routeSegment, requestSegment)`. -/
def captureStep (paramMap : ParamMap) (p : Str × Str) : ParamMap :=
  if hasPrefix p.1 ':' && nonBlank p.2 then mapSet paramMap (trimPrefix p.1 ':') p.2
  else paramMap

/-- The leading pairs `(routeSegment, requestSegment)` that match. -/
def matchedPairs (foldOrbit : Char → Char → Bool) (requestSegments routeSegments : List Str) :
    List (Str × Str) :=
  (routeSegments.zip requestSegments).takeWhile (fun p => segmentMatches foldOrbit p.1 p.2)

/-- Whether `isMatchPath` returns `true` on the two segment lists. -/
def pathMatches (foldOrbit : Char → Char → Bool) (requestSegments routeSegments : List Str) : Bool :=
  match isMatchPath foldOrbit requestSegments routeSegments with
  | some (isPathMatch, _) => isPathMatch
  | none => false

/-- Whether a route passes the three tests of the loop of `handle`, given the
request's segments: equal segment count, `isMatchPath`, `isMethodMatch`. -/
def candidateMatches {H : Type} (foldOrbit : Char → Char → Bool) (req : Request H)
    (requestSegment : List Str) (route : routeConfig H) : Bool :=
  decide (route.pathSegments.length = requestSegment.length) &&
    pathMatches foldOrbit requestSegment route.pathSegments &&
    isMethodMatch foldOrbit req route

/-- Whether a route matches a request: `candidateMatches` at the segments of
the request's path. -/
def routeMatches {H : Type} (foldOrbit : Char → Char → Bool) (req : Request H)
    (route : routeConfig H) : Bool :=
  candidateMatches foldOrbit req (requestSegments req.URL.Path) route

/-- The parameter map of a route whose every segment matches: `captureStep`
folded over all positions. -/
def capturedMap (requestSegment routeSegments : List Str) : ParamMap :=
  (routeSegments.zip requestSegment).foldl captureStep []

/-- The invariant `AddRoute` establishes for a route table: the segments of
every route are its path, trailing slashes trimmed, split on `/`. -/
def WellFormed {H : Type} (r : router H) : Prop :=
  ∀ route ∈ r.routes, route.pathSegments = split (trimRight route.path '/') '/'

/-- A request without context values. -/
def mkRequest (method path : String) : Request Nat :=
  { Method := method.toList
    URL := { Path := path.toList, text := path.toList }
    ctx := { pathParam := none, route := none, traceId := none } }

/-- The table of `TestAddRoute`, first three routes:
`GET /data`, `GET /data/:id`, `GET /data/:id/item` (handlers numbered). -/
def dataTable : router Nat :=
  AddRoute (AddRoute (AddRoute NewRouter "GET".toList "/data".toList 0)
    "GET".toList "/data/:id".toList 1) "GET".toList "/data/:id/item".toList 2

/-- The table of `testHandleNotMatch`: `GET /data`, `POST /data`. -/
def getPostTable : router Nat :=
  AddRoute (AddRoute NewRouter "GET".toList "/data".toList 0) "POST".toList "/data".toList 1

/-- The parameter names of a route: its segments that start with `:`,
without that `:`, in order. -/
def paramNames (routeSegments : List Str) : List Str :=
  (routeSegments.filter (fun s => hasPrefix s ':')).map (fun s => trimPrefix s ':')

/-- The pairs (parameter name, request segment) at the parameter positions of
a route, in order. -/
def captures (requestSegment routeSegments : List Str) : ParamMap :=
  (routeSegments.zip requestSegment).filterMap
    (fun p => if hasPrefix p.1 ':' then some (trimPrefix p.1 ':', p.2) else none)

/-- What the examples read off a dispatch: index, registered path and
parameter map of the selected route. -/
def summary {H : Type} (o : Option (Option (Target H))) : Option (Option (Nat × Str × ParamMap)) :=
  o.map (Option.map (fun t => (t.index, t.route.path, t.paramMap)))

/-- A table in which `GET /data` is registered twice. -/
def dupTable : router Nat :=
  AddRoute (AddRoute NewRouter "GET".toList "/data".toList 0) "GET".toList "/data".toList 1

/-- The table of `testHandleMatch` (handlers numbered in registration order). -/
def matchTable : router Nat :=
  AddRoute (AddRoute (AddRoute (AddRoute (AddRoute (AddRoute (AddRoute (AddRoute NewRouter
    "GET".toList "/".toList 0) "GET".toList "/data".toList 1) "POST".toList "/data".toList 2)
    "GET".toList "/data/:id".toList 3) "PUT".toList "/data/:id".toList 4)
    "DELETE".toList "/data/:id".toList 5) "GET".toList "/data/:id/item".toList 6)
    "GET".toList "/data/:id/:typeId".toList 7

/-- The request `handle` passes to the handler: the incoming request with the
three context values set. -/
def enrich {H : Type} (req : Request H) (target : Target H) (traceId : Str) : Request H :=
  { req with ctx := { pathParam := some target.paramMap
                      route := some target.route
                      traceId := some traceId } }

/-- The arguments of one call of `AddRoute`. -/
structure Registration (H : Type) where
  method : Str
  path : Str
  handler : H

/-- The route `AddRoute` builds from its arguments. -/
def Registration.route {H : Type} (reg : Registration H) : routeConfig H :=
  { httpMethod := reg.method
    path := reg.path
    pathSegments := split (trimRight reg.path '/') '/'
    handler := reg.handler }

/-- A sequence of `AddRoute` calls on a router. -/
def addRoutes {H : Type} (r : router H) (regs : List (Registration H)) : router H :=
  regs.foldl (fun acc reg => AddRoute acc reg.method reg.path reg.handler) r

/-- A sequence of `AddRoute` calls on a new router. -/
def registerAll {H : Type} (regs : List (Registration H)) : router H :=
  addRoutes NewRouter regs

/-- The registrations of `TestAddRoute`. -/
def testAddRouteRegs : List (Registration Nat) :=
  [ { method := "GET".toList, path := "/data".toList, handler := 0 },
    { method := "GET".toList, path := "/data/:id".toList, handler := 0 },
    { method := "GET".toList, path := "/data/:id/item".toList, handler := 0 },
    { method := "POST".toList, path := "/data".toList, handler := 0 },
    { method := "PUT".toList, path := "/data/:id".toList, handler := 0 },
    { method := "DELETE".toList, path := "/data/:id".toList, handler := 0 } ]

/-- Two registrations of `GET /data`, with different handlers. -/
def dupRegs : List (Registration Nat) :=
  [ { method := "GET".toList, path := "/data".toList, handler := 0 },
    { method := "GET".toList, path := "/data".toList, handler := 1 } ]

/-! ## Server construction -/

/-- A configuration value, of Go type `interface{}`: a string, or a value of
another type. -/
inductive ConfigValue where
  | str (s : Str)
  | other
  deriving DecidableEq

/-- The fields of `http.Server` that `NewServer` sets from the configuration;
durations are in nanoseconds, `Handler` is the router whose `handle` serves. -/
structure Server (H : Type) where
  Addr : Str
  ReadTimeout : Int
  WriteTimeout : Int
  Handler : router H

/-- The error message of `NewServer` for the read timeout. -/
def readTimeoutInvalid : Str :=
  "server.readTimeout invalid !!, required string format of time.Duration".toList

/-- The error message of `NewServer` for the write timeout. -/
def writeTimeoutInvalid : Str :=
  "server.writeTimeout invalid !!, required string format of time.Duration".toList

/-- The method `router.NewServer`.  Its two collaborators are outside the
repository and are parameters: `parseDuration` is `time.ParseDuration` (`none`
for its error), and `configOrDefault key def` is
`goappenv.ConfigOrDefault(r.appenv, key, def)`.  The result is the Go pair
(server or nil, error or nil); `none` stands for the panic of a failed type
assertion `.(string)`. -/
def NewServer {H : Type} (parseDuration : Str → Option Int)
    (configOrDefault : Str → ConfigValue → ConfigValue) (r : router H) :
    Option (Option (Server H) × Option Str) :=
  match configOrDefault "server.readTimeout".toList (ConfigValue.str "1m".toList) with
  | ConfigValue.other => none
  | ConfigValue.str readText =>
    match parseDuration readText with
    | none => some (none, some readTimeoutInvalid)
    | some readTimeout =>
      match configOrDefault "server.writeTimeout".toList (ConfigValue.str "1m".toList) with
      | ConfigValue.other => none
      | ConfigValue.str writeText =>
        match parseDuration writeText with
        | none => some (none, some writeTimeoutInvalid)
        | some writeTimeout =>
          match configOrDefault "server.port".toList (ConfigValue.str ":8080".toList) with
          | ConfigValue.other => none
          | ConfigValue.str addr =>
            some (some { Addr := addr, ReadTimeout := readTimeout,
                         WriteTimeout := writeTimeout, Handler := r }, none)

/-- The configuration of a router without application environment
(`NewRouter(nil, nil)`): every lookup yields the default. -/
def defaultConfig : Str → ConfigValue → ConfigValue := fun _ d => d

/-- A configuration that sets the three server keys to strings, as the files
`config.json` of `TestNewServer` do. -/
def serverConfig (port readTimeout writeTimeout : String) : Str → ConfigValue → ConfigValue :=
  fun key d =>
    if key = "server.port".toList then ConfigValue.str port.toList
    else if key = "server.readTimeout".toList then ConfigValue.str readTimeout.toList
    else if key = "server.writeTimeout".toList then ConfigValue.str writeTimeout.toList
    else d

/-- A stand-in for `time.ParseDuration` on the duration strings of
`TestNewServer`: `1m`, `5m` and `10m` parse (to nanoseconds), anything else is
an error. -/
def sampleParseDuration (s : Str) : Option Int :=
  if s = "1m".toList then some 60000000000
  else if s = "5m".toList then some 300000000000
  else if s = "10m".toList then some 600000000000
  else none

/-! ## The full scan, as the specification words it -/

/-- Trimming whitespace, in the words of the specification: leading and
trailing whitespace characters (space, tab, carriage return, line feed) are
removed. -/
def trimWhitespace (s : Str) : Str :=
  ((s.dropWhile Char.isWhitespace).reverse.dropWhile Char.isWhitespace).reverse

/-- A request segment that is non-blank in the words of the specification:
non-empty after trimming whitespace. -/
def nonBlankWhitespace (requestSegment : Str) : Bool :=
  decide ((trimWhitespace requestSegment).length > 0)

/-- Whether position `i` matches, in the words of the specification: the route
segment starts with `:` and the request segment is non-empty after trimming
whitespace, or the two segments are equal case-insensitively
(`strings.EqualFold`). -/
def positionMatches (foldOrbit : Char → Char → Bool) (requestSegments routeSegments : List Str)
    (i : Nat) : Bool :=
  match routeSegments[i]?, requestSegments[i]? with
  | some routeSegment, some requestSegment =>
    (hasPrefix routeSegment ':' && nonBlankWhitespace requestSegment) ||
      equalFold foldOrbit routeSegment requestSegment
  | _, _ => false

/-- The full scan of the specification: every position of the route matches,
with no early exit and no counter. -/
def fullScanMatch (foldOrbit : Char → Char → Bool) (requestSegments routeSegments : List Str) :
    Bool :=
  (List.range routeSegments.length).all (positionMatches foldOrbit requestSegments routeSegments)

/-- Whether position `i` matches, with blankness taken for the space character
alone: the route segment starts with `:` and the request segment is non-empty
after trimming the space character U+0020, or the two segments are equal
case-insensitively (`strings.EqualFold`). -/
def positionMatchesSpace (foldOrbit : Char → Char → Bool)
    (requestSegments routeSegments : List Str) (i : Nat) : Bool :=
  match routeSegments[i]?, requestSegments[i]? with
  | some routeSegment, some requestSegment =>
    (hasPrefix routeSegment ':' && nonBlank requestSegment) ||
      equalFold foldOrbit routeSegment requestSegment
  | _, _ => false

/-- The full scan with blankness taken for the space character alone: every
position of the route matches, with no early exit and no counter. -/
def fullScanMatchSpace (foldOrbit : Char → Char → Bool)
    (requestSegments routeSegments : List Str) : Bool :=
  (List.range routeSegments.length).all
    (positionMatchesSpace foldOrbit requestSegments routeSegments)

/-- A table in which two candidates capture a value before they are rejected:
`GET /data/:x/list` (rejected on its last segment), `POST /data/:y/item`
(rejected on the method), then `GET /data/:id/item`. -/
def leakTable : router Nat :=
  AddRoute (AddRoute (AddRoute NewRouter "GET".toList "/data/:x/list".toList 0)
    "POST".toList "/data/:y/item".toList 1) "GET".toList "/data/:id/item".toList 2

/-- A table with the one route `GET /:id/:id`, in which a parameter name
occurs twice. -/
def repeatTable : router Nat :=
  AddRoute NewRouter "GET".toList "/:id/:id".toList 0

/-! ## Lemmas on the string functions -/

theorem trimRight_eq_rdropWhile (s : Str) (c : Char) :
    trimRight s c = s.rdropWhile (fun x => x == c) := rfl

theorem trimRight_append_cut (s : Str) (c : Char) : trimRight (s ++ [c]) c = trimRight s c := by
  simp [trimRight]

theorem trimRight_idem (s : Str) (c : Char) : trimRight (trimRight s c) c = trimRight s c := by
  simp only [trimRight_eq_rdropWhile]
  exact List.rdropWhile_idempotent _ _

theorem runeEqualFold_refl (fo : Char → Char → Bool) (c : Char) : runeEqualFold fo c c = true := by
  simp [runeEqualFold]

theorem equalFold_refl (fo : Char → Char → Bool) (s : Str) : equalFold fo s s = true := by
  induction s with
  | nil => rfl
  | cons c cs ih => simp [equalFold, runeEqualFold_refl, ih]

theorem split_ne_nil (s : Str) (sep : Char) : split s sep ≠ [] := by
  induction s with
  | nil => simp [split]
  | cons x xs ih =>
    simp only [split]
    split
    · simp
    · split <;> simp

theorem trim_eq_nil_iff (s : Str) (c : Char) : trim s c = [] ↔ ∀ x ∈ s, x = c := by
  simp only [trim, trimRight_eq_rdropWhile, trimLeft, List.rdropWhile_eq_nil_iff]
  constructor
  · intro h
    have hnil : s.dropWhile (fun x => x == c) = [] := by
      cases hd : s.dropWhile (fun x => x == c) with
      | nil => rfl
      | cons y ys =>
        have hy : (y == c) = true := h y (by simp [hd])
        have hhead := List.head_dropWhile_not (fun x => x == c) s (by simp [hd])
        simp [hd] at hhead
        simp [hhead] at hy
    intro x hx
    have := List.dropWhile_eq_nil_iff.mp hnil x hx
    simpa using this
  · intro h x hx
    have hmem : x ∈ s := (List.dropWhile_sublist _).subset hx
    simpa using h x hmem

theorem nonBlank_of_hasPrefix_colon (s : Str) (h : hasPrefix s ':' = true) : nonBlank s = true := by
  cases s with
  | nil => simp [hasPrefix] at h
  | cons x xs =>
    simp only [hasPrefix, beq_iff_eq] at h
    subst h
    simp only [nonBlank, gt_iff_lt, decide_eq_true_eq, List.length_pos]
    intro hnil
    have := (trim_eq_nil_iff _ _).mp hnil ':' (by simp)
    exact absurd this (by decide)

theorem equalFold_colon_blank (fo : Char → Char → Bool) (rt req : Str)
    (hp : hasPrefix rt ':' = true) (hb : nonBlank req = false) : equalFold fo rt req = false := by
  cases rt with
  | nil => simp [hasPrefix] at hp
  | cons x xs =>
    simp only [hasPrefix, beq_iff_eq] at hp
    subst hp
    cases req with
    | nil => simp [equalFold]
    | cons y ys =>
      have hnil : trim (y :: ys) ' ' = [] := by
        simpa [nonBlank] using hb
      have hy : y = ' ' := (trim_eq_nil_iff _ _).mp hnil y (by simp)
      subst hy
      have : runeEqualFold fo ':' ' ' = false := by rfl
      simp [equalFold, this]

/-! ## The loop of `isMatchPath` in closed form -/

theorem isMatchPathLoop_eq (fo : Char → Char → Bool) :
    ∀ (reqs rts : List Str) (total : Nat) (pm : ParamMap), reqs.length ≤ rts.length →
      isMatchPathLoop fo reqs rts total pm =
        some (total + (matchedPairs fo reqs rts).length,
          (matchedPairs fo reqs rts).foldl captureStep pm) := by
  intro reqs
  induction reqs with
  | nil =>
    intro rts total pm _
    cases rts <;> simp [isMatchPathLoop, matchedPairs]
  | cons q qs ih =>
    intro rts total pm hlen
    cases rts with
    | nil => simp at hlen
    | cons t ts =>
      have hlen2 : qs.length ≤ ts.length := by simpa using hlen
      simp only [isMatchPathLoop]
      by_cases h1 : (hasPrefix t ':' && decide ((trim q ' ').length > 0)) = true
      · have hm : segmentMatches fo t q = true := by
          simp only [segmentMatches, nonBlank]
          rw [h1]; rfl
        have hc : captureStep pm (t, q) = mapSet pm (trimPrefix t ':') q := by
          simp only [captureStep, nonBlank]
          rw [if_pos h1]
        rw [if_pos h1, ih ts (total + 1) _ hlen2]
        simp only [matchedPairs, List.zip_cons_cons, List.takeWhile_cons, hm, if_true,
          List.length_cons, List.foldl_cons, hc]
        congr 2
        omega
      · have hc : captureStep pm (t, q) = pm := by
          simp only [captureStep, nonBlank]
          rw [if_neg h1]
        rw [if_neg h1]
        by_cases h2 : equalFold fo t q = true
        · have hm : segmentMatches fo t q = true := by
            simp only [segmentMatches, h2, Bool.or_true]
          rw [if_pos h2, ih ts (total + 1) _ hlen2]
          simp only [matchedPairs, List.zip_cons_cons, List.takeWhile_cons, hm, if_true,
            List.length_cons, List.foldl_cons, hc]
          congr 2
          omega
        · have hm : segmentMatches fo t q = false := by
            simp only [segmentMatches, nonBlank]
            simp only [Bool.not_eq_true] at h1 h2
            rw [h1, h2]; rfl
          rw [if_neg h2]
          simp [matchedPairs, hm]

theorem isMatchPath_eq (fo : Char → Char → Bool) (reqs rts : List Str)
    (hlen : reqs.length ≤ rts.length) :
    isMatchPath fo reqs rts =
      some ((matchedPairs fo reqs rts).length == rts.length,
        (matchedPairs fo reqs rts).foldl captureStep []) := by
  simp [isMatchPath, isMatchPathLoop_eq fo reqs rts 0 [] hlen]

theorem matchedPairs_length_le (fo : Char → Char → Bool) (reqs rts : List Str) :
    (matchedPairs fo reqs rts).length ≤ (rts.zip reqs).length := by
  exact (List.takeWhile_sublist _).length_le

theorem matchedPairs_full_iff (fo : Char → Char → Bool) (reqs rts : List Str)
    (hlen : reqs.length = rts.length) :
    (matchedPairs fo reqs rts).length = rts.length ↔
      ∀ p ∈ rts.zip reqs, segmentMatches fo p.1 p.2 = true := by
  have hz : (rts.zip reqs).length = rts.length := by simp [hlen]
  constructor
  · intro h
    have hsub : (matchedPairs fo reqs rts).Sublist (rts.zip reqs) := List.takeWhile_sublist _
    have heq : matchedPairs fo reqs rts = rts.zip reqs :=
      hsub.eq_of_length (by rw [h, hz])
    exact List.takeWhile_eq_self_iff.mp heq
  · intro h
    have heq : matchedPairs fo reqs rts = rts.zip reqs := List.takeWhile_eq_self_iff.mpr h
    rw [heq, hz]

/-- With equal lengths, `isMatchPath` returns `true` exactly when every
position matches, and then the parameter map is the fold of `captureStep`
over all positions. -/
theorem pathMatches_iff (fo : Char → Char → Bool) (reqs rts : List Str)
    (hlen : reqs.length = rts.length) :
    pathMatches fo reqs rts = true ↔ ∀ p ∈ rts.zip reqs, segmentMatches fo p.1 p.2 = true := by
  rw [← matchedPairs_full_iff fo reqs rts hlen]
  simp [pathMatches, isMatchPath_eq fo reqs rts hlen.le]

theorem isMatchPath_true_map (fo : Char → Char → Bool) (reqs rts : List Str) (pm : ParamMap)
    (hlen : reqs.length = rts.length) (h : isMatchPath fo reqs rts = some (true, pm)) :
    pm = (rts.zip reqs).foldl captureStep [] := by
  rw [isMatchPath_eq fo reqs rts hlen.le] at h
  simp only [Option.some.injEq, Prod.mk.injEq, beq_iff_eq] at h
  have hsub : (matchedPairs fo reqs rts).Sublist (rts.zip reqs) := List.takeWhile_sublist _
  have heq : matchedPairs fo reqs rts = rts.zip reqs :=
    hsub.eq_of_length (by rw [h.1]; simp [hlen])
  rw [← h.2, heq]

/-! ## The scan of `handle` in closed form -/

theorem scanRoutes_cons {H : Type} (fo : Char → Char → Bool) (req : Request H) (segs : List Str)
    (route : routeConfig H) (rest : List (routeConfig H)) (idx : Nat) :
    scanRoutes fo req segs (route :: rest) idx =
      if candidateMatches fo req segs route = true then
        some (some { index := idx, route := route,
                     paramMap := capturedMap segs route.pathSegments })
      else scanRoutes fo req segs rest (idx + 1) := by
  simp only [scanRoutes, candidateMatches]
  by_cases hlen : route.pathSegments.length = segs.length
  · have hm := isMatchPath_eq fo segs route.pathSegments hlen.ge
    have hp : pathMatches fo segs route.pathSegments =
        ((matchedPairs fo segs route.pathSegments).length == route.pathSegments.length) := by
      simp [pathMatches, hm]
    simp only [hlen, bne_self_eq_false, Bool.false_eq_true, if_false, hm, decide_True,
      Bool.true_and, hp]
    by_cases hfull :
        ((matchedPairs fo segs route.pathSegments).length == route.pathSegments.length) = true
    · have hsub : (matchedPairs fo segs route.pathSegments).Sublist (route.pathSegments.zip segs) :=
        List.takeWhile_sublist _
      have heq : matchedPairs fo segs route.pathSegments = route.pathSegments.zip segs :=
        hsub.eq_of_length (by rw [beq_iff_eq.mp hfull]; simp [hlen])
      simp only [hfull, Bool.true_and, capturedMap, heq]
    · simp only [Bool.not_eq_true] at hfull
      have hne : ¬ (matchedPairs fo segs route.pathSegments).length = segs.length := by
        rw [← hlen]; simpa using hfull
      simp [hne]
  · have hne : (route.pathSegments.length != segs.length) = true := by
      simpa using hlen
    simp [hne, hlen]

theorem scanRoutes_total {H : Type} (fo : Char → Char → Bool) (req : Request H)
    (segs : List Str) : ∀ (routes : List (routeConfig H)) (idx : Nat),
      ∃ o, scanRoutes fo req segs routes idx = some o := by
  intro routes
  induction routes with
  | nil => intro idx; exact ⟨none, rfl⟩
  | cons route rest ih =>
    intro idx
    rw [scanRoutes_cons]
    split
    · exact ⟨_, rfl⟩
    · exact ih (idx + 1)

theorem scanRoutes_some_iff {H : Type} (fo : Char → Char → Bool) (req : Request H)
    (segs : List Str) : ∀ (routes : List (routeConfig H)) (idx : Nat) (t : Target H),
      scanRoutes fo req segs routes idx = some (some t) ↔
        ∃ k route, routes[k]? = some route ∧ t.index = idx + k ∧ t.route = route ∧
          t.paramMap = capturedMap segs route.pathSegments ∧
          candidateMatches fo req segs route = true ∧
          ∀ j rj, j < k → routes[j]? = some rj → candidateMatches fo req segs rj = false := by
  intro routes
  induction routes with
  | nil =>
    intro idx t
    simp [scanRoutes]
  | cons route rest ih =>
    intro idx t
    rw [scanRoutes_cons]
    by_cases hc : candidateMatches fo req segs route = true
    · rw [if_pos hc]
      constructor
      · intro h
        simp only [Option.some.injEq] at h
        subst h
        exact ⟨0, route, by simp, by simp, rfl, rfl, hc, by intro j rj hj; omega⟩
      · rintro ⟨k, rk, hk, hidx, hroute, hpm, hck, hbefore⟩
        cases k with
        | zero =>
          simp only [List.getElem?_cons_zero, Option.some.injEq] at hk
          subst hk
          cases t
          simp_all
        | succ k =>
          have := hbefore 0 route (by omega) (by simp)
          rw [hc] at this
          exact absurd this (by simp)
    · rw [if_neg hc, ih (idx + 1) t]
      simp only [Bool.not_eq_true] at hc
      constructor
      · rintro ⟨k, rk, hk, hidx, hroute, hpm, hck, hbefore⟩
        refine ⟨k + 1, rk, by simpa using hk, by omega, hroute, hpm, hck, ?_⟩
        intro j rj hj hrj
        cases j with
        | zero =>
          simp only [List.getElem?_cons_zero, Option.some.injEq] at hrj
          subst hrj
          exact hc
        | succ j =>
          exact hbefore j rj (by omega) (by simpa using hrj)
      · rintro ⟨k, rk, hk, hidx, hroute, hpm, hck, hbefore⟩
        cases k with
        | zero =>
          simp only [List.getElem?_cons_zero, Option.some.injEq] at hk
          subst hk
          rw [hc] at hck
          exact absurd hck (by simp)
        | succ k =>
          refine ⟨k, rk, by simpa using hk, by omega, hroute, hpm, hck, ?_⟩
          intro j rj hj hrj
          exact hbefore (j + 1) rj (by omega) (by simpa using hrj)

theorem scanRoutes_none_iff {H : Type} (fo : Char → Char → Bool) (req : Request H)
    (segs : List Str) : ∀ (routes : List (routeConfig H)) (idx : Nat),
      scanRoutes fo req segs routes idx = some none ↔
        ∀ route ∈ routes, candidateMatches fo req segs route = false := by
  intro routes
  induction routes with
  | nil => intro idx; simp [scanRoutes]
  | cons route rest ih =>
    intro idx
    rw [scanRoutes_cons]
    by_cases hc : candidateMatches fo req segs route = true
    · simp [hc]
    · rw [if_neg hc, ih (idx + 1)]
      simp only [Bool.not_eq_true] at hc
      simp [hc]

/-! ## Dispatch: which route is selected -/

theorem routeMatches_iff {H : Type} (fo : Char → Char → Bool) (req : Request H)
    (route : routeConfig H) :
    routeMatches fo req route = true ↔
      route.pathSegments.length = (requestSegments req.URL.Path).length ∧
      pathMatches fo (requestSegments req.URL.Path) route.pathSegments = true ∧
      isMethodMatch fo req route = true := by
  simp [routeMatches, candidateMatches, and_assoc]

theorem selectRoute_total {H : Type} (fo : Char → Char → Bool) (r : router H) (req : Request H) :
    ∃ o, selectRoute fo r req = some o :=
  scanRoutes_total fo req _ r.routes 0

theorem selectRoute_some_iff {H : Type} (fo : Char → Char → Bool) (r : router H)
    (req : Request H) (t : Target H) :
    selectRoute fo r req = some (some t) ↔
      r.routes[t.index]? = some t.route ∧
      t.paramMap = capturedMap (requestSegments req.URL.Path) t.route.pathSegments ∧
      routeMatches fo req t.route = true ∧
      ∀ j rj, j < t.index → r.routes[j]? = some rj → routeMatches fo req rj = false := by
  unfold selectRoute routeMatches
  rw [scanRoutes_some_iff]
  constructor
  · rintro ⟨k, route, hk, hidx, hroute, hpm, hc, hbefore⟩
    have hki : k = t.index := by omega
    subst hki
    subst hroute
    exact ⟨hk, hpm, hc, hbefore⟩
  · rintro ⟨hk, hpm, hc, hbefore⟩
    exact ⟨t.index, t.route, hk, by omega, rfl, hpm, hc, hbefore⟩

theorem selectRoute_none_iff {H : Type} (fo : Char → Char → Bool) (r : router H)
    (req : Request H) :
    selectRoute fo r req = some none ↔ ∀ route ∈ r.routes, routeMatches fo req route = false :=
  scanRoutes_none_iff fo req _ r.routes 0

/-- C1 (first match wins).  For every route table and request, `handle` selects
the route at index `i` if and only if route `i` has the segment count of the
request, `isMatchPath` and `isMethodMatch` accept it, and no route at a smaller
index matches; the selected target then holds that route.  With `/data/:id`
registered before `/data/active` under one method, a request for
`/data/active` selects the first, with `id = "active"`. -/
theorem C1_first_match_wins {H : Type} (foldOrbit : Char → Char → Bool) (r : router H)
    (req : Request H) (i : Nat) (m : Str) (h₁ h₂ : H) (c : Context H) (u : Str) :
    ((∃ t, selectRoute foldOrbit r req = some (some t) ∧ t.index = i) ↔
      ∃ route, r.routes[i]? = some route ∧
        route.pathSegments.length = (requestSegments req.URL.Path).length ∧
        pathMatches foldOrbit (requestSegments req.URL.Path) route.pathSegments = true ∧
        isMethodMatch foldOrbit req route = true ∧
        ∀ j rj, j < i → r.routes[j]? = some rj → routeMatches foldOrbit req rj = false) ∧
    (∀ t, selectRoute foldOrbit r req = some (some t) → r.routes[t.index]? = some t.route) ∧
    selectRoute foldOrbit
        (AddRoute (AddRoute NewRouter m "/data/:id".toList h₁) m "/data/active".toList h₂)
        { Method := m, URL := { Path := "/data/active".toList, text := u }, ctx := c } =
      some (some
        { index := 0
          route := { httpMethod := m, path := "/data/:id".toList,
                     pathSegments := ["".toList, "data".toList, ":id".toList], handler := h₁ }
          paramMap := [("id".toList, "active".toList)] }) := by
  refine ⟨?_, ?_, ?_⟩
  · constructor
    · rintro ⟨t, ht, hi⟩
      obtain ⟨hk, _, hm, hbefore⟩ := (selectRoute_some_iff foldOrbit r req t).mp ht
      subst hi
      have hm3 := (routeMatches_iff foldOrbit req t.route).mp hm
      exact ⟨t.route, hk, hm3.1, hm3.2.1, hm3.2.2, hbefore⟩
    · rintro ⟨route, hk, h1, h2, h3, hbefore⟩
      refine ⟨{ index := i, route := route,
                paramMap := capturedMap (requestSegments req.URL.Path) route.pathSegments },
              ?_, rfl⟩
      exact (selectRoute_some_iff foldOrbit r req _).mpr
        ⟨hk, rfl, (routeMatches_iff foldOrbit req route).mpr ⟨h1, h2, h3⟩, hbefore⟩
  · intro t ht
    exact ((selectRoute_some_iff foldOrbit r req t).mp ht).1
  · have hp : pathMatches foldOrbit ["".toList, "data".toList, "active".toList]
        ["".toList, "data".toList, ":id".toList] = true := by rfl
    have hs : split (trimRight "/data/:id".toList '/') '/' =
        ["".toList, "data".toList, ":id".toList] := by decide
    have hq : requestSegments "/data/active".toList =
        ["".toList, "data".toList, "active".toList] := by decide
    have hcap : capturedMap ["".toList, "data".toList, "active".toList]
        ["".toList, "data".toList, ":id".toList] = [("id".toList, "active".toList)] := by decide
    simp only [selectRoute, AddRoute, NewRouter, List.nil_append, List.cons_append, hs, hq]
    rw [scanRoutes_cons, if_pos, hcap]
    simp only [candidateMatches, hp, isMethodMatch, equalFold_refl, Bool.and_true]
    rfl

theorem WellFormed_NewRouter {H : Type} : WellFormed (NewRouter : router H) := by
  intro route h
  simp [NewRouter] at h

theorem WellFormed_AddRoute {H : Type} (r : router H) (method path : Str) (handler : H)
    (h : WellFormed r) : WellFormed (AddRoute r method path handler) := by
  intro route hmem
  simp only [AddRoute, List.mem_append, List.mem_singleton] at hmem
  rcases hmem with hmem | hmem
  · exact h route hmem
  · subst hmem; rfl

theorem zip_self_fst_eq_snd {α : Type} : ∀ (l : List α) (p : α × α), p ∈ l.zip l → p.1 = p.2 := by
  intro l
  induction l with
  | nil => intro p hp; simp at hp
  | cons x xs ih =>
    intro p hp
    simp only [List.zip_cons_cons, List.mem_cons] at hp
    rcases hp with hp | hp
    · subst hp; rfl
    · exact ih p hp

theorem segmentMatches_self (fo : Char → Char → Bool) (s : Str) : segmentMatches fo s s = true := by
  simp [segmentMatches, equalFold_refl]

theorem pathMatches_self (fo : Char → Char → Bool) (segs : List Str) :
    pathMatches fo segs segs = true := by
  rw [pathMatches_iff fo segs segs rfl]
  intro p hp
  rw [zip_self_fst_eq_snd segs p hp]
  exact segmentMatches_self fo p.2

/-- C2 (self-match).  In a well-formed table (one built by `AddRoute`) holding
a route `R` at index `i`, a request whose method is `R`'s and whose path, with
trailing slashes trimmed, is `R`'s registered path is dispatched to some route
(never not-found) at an index no greater than `i`, and to `R` itself when no
route registered before `R` matches the request. -/
theorem C2_self_match {H : Type} (foldOrbit : Char → Char → Bool) (r : router H)
    (req : Request H) (i : Nat) (R : routeConfig H)
    (hwf : WellFormed r) (hR : r.routes[i]? = some R)
    (hmethod : req.Method = R.httpMethod) (hpath : trimRight req.URL.Path '/' = R.path) :
    ∃ t, selectRoute foldOrbit r req = some (some t) ∧ t.index ≤ i ∧
      ((∀ j rj, j < i → r.routes[j]? = some rj → routeMatches foldOrbit req rj = false) →
        t.index = i ∧ t.route = R) := by
  have hmem : R ∈ r.routes := List.getElem?_mem hR
  have hsegs : R.pathSegments = requestSegments req.URL.Path := by
    rw [hwf R hmem, ← hpath, trimRight_idem]
    rfl
  have hRm : routeMatches foldOrbit req R = true := by
    rw [routeMatches_iff, hsegs]
    exact ⟨rfl, pathMatches_self foldOrbit _, by
      simp [isMethodMatch, hmethod, equalFold_refl]⟩
  obtain ⟨o, ho⟩ := selectRoute_total foldOrbit r req
  cases o with
  | none =>
    have := (selectRoute_none_iff foldOrbit r req).mp ho R hmem
    rw [hRm] at this
    exact absurd this (by simp)
  | some t =>
    obtain ⟨hk, _, hm, hbefore⟩ := (selectRoute_some_iff foldOrbit r req t).mp ho
    have hle : t.index ≤ i := by
      by_contra hlt
      have := hbefore i R (by omega) hR
      rw [hRm] at this
      exact absurd this (by simp)
    refine ⟨t, ho, hle, ?_⟩
    intro hnone
    have hti : t.index = i := by
      by_contra hne
      have := hnone t.index t.route (by omega) hk
      rw [hm] at this
      exact absurd this (by simp)
    refine ⟨hti, ?_⟩
    rw [hti, hR] at hk
    exact (Option.some.inj hk).symm

/-- Witness for C2: in the table `GET /data`, `GET /data/:id`, `GET /data/:id/item`
the request `GET /data/:id/item/` is dispatched to the third route. -/
theorem C2_self_match_witness :
    ∃ t, selectRoute asciiOrbit dataTable (mkRequest "GET" "/data/:id/item/") = some (some t) ∧
      t.index ≤ 2 ∧
      ((∀ j rj, j < 2 → dataTable.routes[j]? = some rj →
          routeMatches asciiOrbit (mkRequest "GET" "/data/:id/item/") rj = false) →
        t.index = 2 ∧
        t.route = { httpMethod := "GET".toList, path := "/data/:id/item".toList,
                    pathSegments := ["".toList, "data".toList, ":id".toList, "item".toList],
                    handler := 2 }) :=
  C2_self_match asciiOrbit dataTable (mkRequest "GET" "/data/:id/item/") 2 _
    (WellFormed_AddRoute _ _ _ _ (WellFormed_AddRoute _ _ _ _
      (WellFormed_AddRoute _ _ _ _ WellFormed_NewRouter)))
    rfl (by decide) (by decide)

theorem scanRoutes_congr_method {H : Type} (fo : Char → Char → Bool) (req₁ req₂ : Request H)
    (hm : req₁.Method = req₂.Method) (segs : List Str) :
    ∀ (routes : List (routeConfig H)) (idx : Nat),
      scanRoutes fo req₁ segs routes idx = scanRoutes fo req₂ segs routes idx := by
  intro routes
  induction routes with
  | nil => intro idx; rfl
  | cons route rest ih =>
    intro idx
    rw [scanRoutes_cons, scanRoutes_cons, ih (idx + 1)]
    simp only [candidateMatches, isMethodMatch, hm]

theorem selectRoute_append_slash {H : Type} (fo : Char → Char → Bool) (r : router H)
    (m P u₁ u₂ : Str) (c₁ c₂ : Context H) :
    selectRoute fo r { Method := m, URL := { Path := P ++ "/".toList, text := u₁ }, ctx := c₁ } =
      selectRoute fo r { Method := m, URL := { Path := P, text := u₂ }, ctx := c₂ } := by
  have hseg : requestSegments (P ++ "/".toList) = requestSegments P := by
    simp only [requestSegments]
    rw [show "/".toList = ['/'] from rfl, trimRight_append_cut]
  simp only [selectRoute, hseg]
  exact scanRoutes_congr_method fo
    { Method := m, URL := { Path := P ++ "/".toList, text := u₁ }, ctx := c₁ }
    { Method := m, URL := { Path := P, text := u₂ }, ctx := c₂ } rfl _ _ _

/-- C3 (trailing-slash invariance).  For every route table, method and path
`P`, the request for `P ++ "/"` and the request for `P` select the same route
(same index, same route value) with the same parameter map, or both select
none; the rest of the two requests plays no part. -/
theorem C3_trailing_slash_invariance {H : Type} (foldOrbit : Char → Char → Bool) (r : router H)
    (m P u₁ u₂ : Str) (c₁ c₂ : Context H) :
    selectRoute foldOrbit r
        { Method := m, URL := { Path := P ++ "/".toList, text := u₁ }, ctx := c₁ } =
      selectRoute foldOrbit r { Method := m, URL := { Path := P, text := u₂ }, ctx := c₂ } := by
  have hseg : requestSegments (P ++ "/".toList) = requestSegments P := by
    simp only [requestSegments]
    rw [show "/".toList = ['/'] from rfl, trimRight_append_cut]
  simp only [selectRoute, hseg]
  exact scanRoutes_congr_method foldOrbit
    { Method := m, URL := { Path := P ++ "/".toList, text := u₁ }, ctx := c₁ }
    { Method := m, URL := { Path := P, text := u₂ }, ctx := c₂ } rfl _ _ _

/-- C4 (cardinality filter).  For every route table and request, the selected
route has as many segments as the normalised request path, and a route whose
segment count differs is not selected, whatever its segments are.  In the table
`GET /data`, `GET /data/:id`, `GET /data/:id/item` the request `GET /data`
selects the first route and `GET /data/x` the second. -/
theorem C4_cardinality_filter {H : Type} (foldOrbit : Char → Char → Bool) (r : router H)
    (req : Request H) :
    (∀ t, selectRoute foldOrbit r req = some (some t) →
      r.routes[t.index]? = some t.route ∧
      t.route.pathSegments.length = (requestSegments req.URL.Path).length) ∧
    (∀ i route, r.routes[i]? = some route →
      route.pathSegments.length ≠ (requestSegments req.URL.Path).length →
      routeMatches foldOrbit req route = false ∧
      ¬ ∃ t, selectRoute foldOrbit r req = some (some t) ∧ t.index = i) ∧
    (selectRoute foldOrbit dataTable (mkRequest "GET" "/data")).map (Option.map Target.index)
      = some (some 0) ∧
    (selectRoute foldOrbit dataTable (mkRequest "GET" "/data/x")).map (Option.map Target.index)
      = some (some 1) := by
  refine ⟨?_, ?_, rfl, rfl⟩
  · intro t ht
    obtain ⟨hk, _, hm, _⟩ := (selectRoute_some_iff foldOrbit r req t).mp ht
    exact ⟨hk, ((routeMatches_iff foldOrbit req t.route).mp hm).1⟩
  · intro i route hi hne
    have hfalse : routeMatches foldOrbit req route = false := by
      cases hrm : routeMatches foldOrbit req route with
      | false => rfl
      | true => exact absurd ((routeMatches_iff foldOrbit req route).mp hrm).1 hne
    refine ⟨hfalse, ?_⟩
    rintro ⟨t, ht, hti⟩
    obtain ⟨hk, _, hm, _⟩ := (selectRoute_some_iff foldOrbit r req t).mp ht
    rw [hti, hi] at hk
    rw [← Option.some.inj hk, hfalse] at hm
    exact absurd hm (by simp)

/-! ## The captured parameter map -/

theorem mapSet_of_not_mem (m : ParamMap) (k v : Str) (h : ∀ e ∈ m, e.1 ≠ k) :
    mapSet m k v = m ++ [(k, v)] := by
  simp only [mapSet]
  congr 1
  rw [List.filter_eq_self]
  intro e he
  simpa using h e he

theorem mem_mapSet (m : ParamMap) (k v : Str) (e : Str × Str) (h : e ∈ mapSet m k v) :
    e ∈ m ∨ e = (k, v) := by
  simp only [mapSet, List.mem_append, List.mem_filter, List.mem_singleton] at h
  rcases h with h | h
  · exact Or.inl h.1
  · exact Or.inr h

theorem mapGet_of_mem : ∀ (l : ParamMap) (k v : Str), (l.map Prod.fst).Nodup → (k, v) ∈ l →
    mapGet l k = some v := by
  intro l
  induction l with
  | nil => intro k v _ h; simp at h
  | cons e es ih =>
    intro k v hnd hmem
    obtain ⟨k', v'⟩ := e
    simp only [List.map_cons, List.nodup_cons] at hnd
    simp only [List.mem_cons, Prod.mk.injEq] at hmem
    simp only [mapGet]
    rcases hmem with ⟨hk, hv⟩ | hmem
    · simp [hk, hv]
    · have hne : k' ≠ k := by
        intro h
        apply hnd.1
        rw [h]
        exact List.mem_map.mpr ⟨(k, v), hmem, rfl⟩
      rw [if_neg hne]
      exact ih k v hnd.2 hmem

theorem captures_keys : ∀ (rts reqs : List Str), rts.length ≤ reqs.length →
    (captures reqs rts).map Prod.fst = paramNames rts := by
  intro rts
  induction rts with
  | nil => intro reqs _; simp [captures, paramNames]
  | cons t ts ih =>
    intro reqs hlen
    cases reqs with
    | nil => simp at hlen
    | cons q qs =>
      have hlen2 : ts.length ≤ qs.length := by simpa using hlen
      have ih2 := ih qs hlen2
      simp only [captures, paramNames] at ih2 ⊢
      by_cases hp : hasPrefix t ':' = true
      · simp [List.filterMap_cons, List.filter_cons, hp, ih2]
      · simp [List.filterMap_cons, List.filter_cons, hp, ih2]

theorem mem_captures : ∀ (rts reqs : List Str) (j : Nat) (rt rq : Str),
    rts[j]? = some rt → reqs[j]? = some rq → hasPrefix rt ':' = true →
    (trimPrefix rt ':', rq) ∈ captures reqs rts := by
  intro rts
  induction rts with
  | nil => intro reqs j rt rq h; simp at h
  | cons t ts ih =>
    intro reqs j rt rq hrt hrq hp
    cases reqs with
    | nil => simp at hrq
    | cons q qs =>
      cases j with
      | zero =>
        simp only [List.getElem?_cons_zero, Option.some.injEq] at hrt hrq
        subst hrt; subst hrq
        simp [captures, List.filterMap_cons, hp]
      | succ j =>
        simp only [List.getElem?_cons_succ] at hrt hrq
        have := ih qs j rt rq hrt hrq hp
        simp only [captures] at this ⊢
        by_cases hpt : hasPrefix t ':' = true
        · simp only [List.zip_cons_cons, List.filterMap_cons, hpt, if_true, List.mem_cons]
          exact Or.inr this
        · simp only [List.zip_cons_cons, List.filterMap_cons, hpt, Bool.false_eq_true, if_false]
          exact this

theorem foldl_captureStep_eq : ∀ (rts reqs : List Str) (acc : ParamMap),
    reqs.length = rts.length →
    (∀ p ∈ rts.zip reqs, hasPrefix p.1 ':' = true → nonBlank p.2 = true) →
    (paramNames rts).Nodup →
    (∀ e ∈ acc, e.1 ∉ paramNames rts) →
    (rts.zip reqs).foldl captureStep acc = acc ++ captures reqs rts := by
  intro rts
  induction rts with
  | nil => intro reqs acc _ _ _ _; simp [captures]
  | cons t ts ih =>
    intro reqs acc hlen hall hnd hdisj
    cases reqs with
    | nil => simp at hlen
    | cons q qs =>
      have hlen2 : qs.length = ts.length := by simpa using hlen
      have hall2 : ∀ p ∈ ts.zip qs, hasPrefix p.1 ':' = true → nonBlank p.2 = true := by
        intro p hp
        exact hall p (by simp [hp])
      simp only [List.zip_cons_cons, List.foldl_cons]
      by_cases hp : hasPrefix t ':' = true
      · have hq : nonBlank q = true := hall (t, q) (by simp) hp
        have hnames : paramNames (t :: ts) = trimPrefix t ':' :: paramNames ts := by
          simp [paramNames, List.filter_cons, hp]
        rw [hnames, List.nodup_cons] at hnd
        have hstep : captureStep acc (t, q) = acc ++ [(trimPrefix t ':', q)] := by
          simp only [captureStep, hp, hq, Bool.and_self, if_true]
          apply mapSet_of_not_mem
          intro e he hek
          apply hdisj e he
          rw [hnames, hek]
          exact List.mem_cons_self _ _
        rw [hstep, ih qs _ hlen2 hall2 hnd.2]
        · simp [captures, List.filterMap_cons, hp]
        · intro e he
          simp only [List.mem_append, List.mem_singleton] at he
          rcases he with he | he
          · intro hmem
            apply hdisj e he
            rw [hnames]
            exact List.mem_cons_of_mem _ hmem
          · rw [he]
            exact hnd.1
      · have hnames : paramNames (t :: ts) = paramNames ts := by
          simp [paramNames, List.filter_cons, hp]
        rw [hnames] at hnd hdisj
        have hstep : captureStep acc (t, q) = acc := by
          simp [captureStep, hp]
        rw [hstep, ih qs acc hlen2 hall2 hnd hdisj]
        simp [captures, List.filterMap_cons, hp]

theorem nonBlank_of_segmentMatches (fo : Char → Char → Bool) (rt rq : Str)
    (hm : segmentMatches fo rt rq = true) (hp : hasPrefix rt ':' = true) : nonBlank rq = true := by
  cases hb : nonBlank rq with
  | true => rfl
  | false =>
    have := equalFold_colon_blank fo rt rq hp hb
    simp [segmentMatches, hp, hb, this] at hm

theorem capturedMap_eq_captures (fo : Char → Char → Bool) (reqs rts : List Str)
    (hlen : rts.length = reqs.length) (hm : pathMatches fo reqs rts = true)
    (hnd : (paramNames rts).Nodup) : capturedMap reqs rts = captures reqs rts := by
  have hall := (pathMatches_iff fo reqs rts hlen.symm).mp hm
  have := foldl_captureStep_eq rts reqs [] hlen.symm
    (fun p hp hpre => nonBlank_of_segmentMatches fo p.1 p.2 (hall p hp) hpre) hnd
    (by intro e he; simp at he)
  simpa [capturedMap] using this

/-- C5 (parameter capture).  When `handle` selects a route whose parameter names
are pairwise distinct, the parameter map holds, for each parameter segment of
the route and nothing else, the entry keyed by the segment without its leading
`:` whose value is the request segment at that position, unchanged.
`GET /data/ABC-1` gives `id = "ABC-1"` on `/data/:id`, and `GET /data/DAT-1/item`
in the table `GET /data`, `GET /data/:id`, `GET /data/:id/item` selects
`/data/:id/item` with `id = "DAT-1"`. -/
theorem C5_parameter_capture {H : Type} (foldOrbit : Char → Char → Bool) (r : router H)
    (req : Request H) :
    (∀ t, selectRoute foldOrbit r req = some (some t) →
      (paramNames t.route.pathSegments).Nodup →
      t.paramMap = captures (requestSegments req.URL.Path) t.route.pathSegments ∧
      t.paramMap.length = (t.route.pathSegments.filter (fun s => hasPrefix s ':')).length ∧
      t.paramMap.map Prod.fst = paramNames t.route.pathSegments ∧
      ∀ (j : Nat) (rt rq : Str), t.route.pathSegments[j]? = some rt →
        (requestSegments req.URL.Path)[j]? = some rq → hasPrefix rt ':' = true →
        mapGet t.paramMap (trimPrefix rt ':') = some rq) ∧
    summary (selectRoute foldOrbit dataTable (mkRequest "GET" "/data/ABC-1")) =
      some (some (1, "/data/:id".toList, [("id".toList, "ABC-1".toList)])) ∧
    summary (selectRoute foldOrbit dataTable (mkRequest "GET" "/data/DAT-1/item")) =
      some (some (2, "/data/:id/item".toList, [("id".toList, "DAT-1".toList)])) := by
  refine ⟨?_, rfl, rfl⟩
  intro t ht hnd
  obtain ⟨_, hpm, hm, _⟩ := (selectRoute_some_iff foldOrbit r req t).mp ht
  obtain ⟨hlen, hpath, _⟩ := (routeMatches_iff foldOrbit req t.route).mp hm
  have heq : t.paramMap = captures (requestSegments req.URL.Path) t.route.pathSegments := by
    rw [hpm]
    exact capturedMap_eq_captures foldOrbit _ _ hlen hpath hnd
  have hkeys := captures_keys t.route.pathSegments (requestSegments req.URL.Path) hlen.le
  refine ⟨heq, ?_, ?_, ?_⟩
  · have := congrArg List.length hkeys
    simpa [heq, paramNames] using this
  · rw [heq, hkeys]
  · intro j rt rq hrt hrq hp
    rw [heq]
    apply mapGet_of_mem
    · rw [hkeys]; exact hnd
    · exact mem_captures _ _ j rt rq hrt hrq hp

/-! ## Method matching -/

/-- C6, as stated, fails.  In the table `GET /data`, `GET /data` the second
route passes the length test, `isMatchPath` and `isMethodMatch` for the request
`GET /data`, and yet `handle` selects the first route, not the second; this
holds whatever the Unicode fold table is. -/
theorem C6_counterexample :
    dupTable.routes[1]? =
        some { httpMethod := "GET".toList, path := "/data".toList,
               pathSegments := ["".toList, "data".toList], handler := 1 } ∧
      pathMatches asciiOrbit (requestSegments "/data".toList) ["".toList, "data".toList] = true ∧
      equalFold asciiOrbit "GET".toList "GET".toList = true ∧
      (selectRoute asciiOrbit dupTable (mkRequest "GET" "/data")).map (Option.map Target.index)
        = some (some 0) ∧
      ∀ fo : Char → Char → Bool,
        pathMatches fo (requestSegments "/data".toList) ["".toList, "data".toList] = true ∧
        equalFold fo "GET".toList "GET".toList = true ∧
        (selectRoute fo dupTable (mkRequest "GET" "/data")).map (Option.map Target.index)
          = some (some 0) :=
  ⟨rfl, by decide, by decide, by decide, fun _ => ⟨rfl, rfl, rfl⟩⟩

/-- C6, amended (method matching).  A route matches a request only if
`strings.EqualFold` accepts the request method and the route's method, and so
does the selected route; a route whose path matches (equal segment count and
`isMatchPath`) and before which no registered route matches the request is
selected exactly when its method also matches; if no registered route has the
request's method, no route is selected and `handle` answers 404 without
invoking a handler, as for `PUT /data` with only `GET /data` and `POST /data`
registered. -/
theorem C6_method_matching {H : Type} (foldOrbit : Char → Char → Bool)
    (exec : H → ResponseWriter → Request H → ResponseWriter) (r : router H) (req : Request H)
    (traceId : Str) (w : ResponseWriter) :
    (∀ route, routeMatches foldOrbit req route = true →
      equalFold foldOrbit req.Method route.httpMethod = true) ∧
    (∀ t, selectRoute foldOrbit r req = some (some t) →
      equalFold foldOrbit req.Method t.route.httpMethod = true) ∧
    (∀ i route, r.routes[i]? = some route →
      route.pathSegments.length = (requestSegments req.URL.Path).length →
      pathMatches foldOrbit (requestSegments req.URL.Path) route.pathSegments = true →
      (∀ j rj, j < i → r.routes[j]? = some rj → routeMatches foldOrbit req rj = false) →
      ((∃ t, selectRoute foldOrbit r req = some (some t) ∧ t.index = i ∧ t.route = route) ↔
        equalFold foldOrbit req.Method route.httpMethod = true)) ∧
    ((∀ route ∈ r.routes, equalFold foldOrbit req.Method route.httpMethod = false) →
      selectRoute foldOrbit r req = some none ∧
      handle foldOrbit exec r traceId w req =
        some { respWriter := w.WriteHeader 404, logged := [notFoundLogLine req], invoked := [] }) ∧
    selectRoute foldOrbit getPostTable (mkRequest "PUT" "/data") = some none := by
  refine ⟨?_, ?_, ?_, ?_, rfl⟩
  · intro route hm
    exact ((routeMatches_iff foldOrbit req route).mp hm).2.2
  · intro t ht
    obtain ⟨_, _, hm, _⟩ := (selectRoute_some_iff foldOrbit r req t).mp ht
    exact ((routeMatches_iff foldOrbit req t.route).mp hm).2.2
  · intro i route hi hlen hpath hbefore
    constructor
    · rintro ⟨t, ht, _, htr⟩
      obtain ⟨_, _, hm, _⟩ := (selectRoute_some_iff foldOrbit r req t).mp ht
      rw [htr] at hm
      exact ((routeMatches_iff foldOrbit req route).mp hm).2.2
    · intro hmeth
      refine ⟨{ index := i, route := route,
                paramMap := capturedMap (requestSegments req.URL.Path) route.pathSegments },
              ?_, rfl, rfl⟩
      exact (selectRoute_some_iff foldOrbit r req _).mpr
        ⟨hi, rfl, (routeMatches_iff foldOrbit req route).mpr ⟨hlen, hpath, hmeth⟩, hbefore⟩
  · intro hall
    have hnone : selectRoute foldOrbit r req = some none := by
      rw [selectRoute_none_iff]
      intro route hmem
      cases hrm : routeMatches foldOrbit req route with
      | false => rfl
      | true =>
        have := ((routeMatches_iff foldOrbit req route).mp hrm).2.2
        simp only [isMethodMatch] at this
        rw [hall route hmem] at this
        exact absurd this (by simp)
    exact ⟨hnone, by simp only [handle, hnone]⟩

/-! ## Blank request segments at parameter positions -/

theorem nonBlank_eq_false_iff (rq : Str) : nonBlank rq = false ↔ ∀ c ∈ rq, c = ' ' := by
  rw [← trim_eq_nil_iff]
  simp [nonBlank, List.length_eq_zero]

theorem segmentMatches_colon_blank (fo : Char → Char → Bool) (rt rq : Str)
    (hp : hasPrefix rt ':' = true) (hb : nonBlank rq = false) : segmentMatches fo rt rq = false := by
  simp [segmentMatches, hb, equalFold_colon_blank fo rt rq hp hb]

theorem takeWhile_eq_takeWhile_take {α : Type} (f : α → Bool) :
    ∀ (l : List α) (j : Nat) (p : α), l[j]? = some p → f p = false →
      l.takeWhile f = (l.take j).takeWhile f := by
  intro l
  induction l with
  | nil => intro j p h; simp at h
  | cons x xs ih =>
    intro j p hj hf
    cases j with
    | zero =>
      simp only [List.getElem?_cons_zero, Option.some.injEq] at hj
      subst hj
      simp [List.takeWhile_cons, hf]
    | succ j =>
      simp only [List.getElem?_cons_succ] at hj
      simp only [List.take_succ_cons, List.takeWhile_cons]
      rw [ih j p hj hf]

theorem matchedPairs_take (fo : Char → Char → Bool) (reqs rts : List Str) (j : Nat)
    (rt rq : Str) (hrt : rts[j]? = some rt) (hrq : reqs[j]? = some rq)
    (hf : segmentMatches fo rt rq = false) :
    matchedPairs fo reqs rts = matchedPairs fo (reqs.take j) (rts.take j) := by
  have hz : (rts.zip reqs)[j]? = some (rt, rq) := List.getElem?_zip_eq_some.mpr ⟨hrt, hrq⟩
  simp only [matchedPairs]
  rw [takeWhile_eq_takeWhile_take _ (rts.zip reqs) j (rt, rq) hz hf, List.zip_eq_zipWith,
    List.take_zipWith, ← List.zip_eq_zipWith]

/-- C7, as stated, fails.  The request segment `"\t"` is made only of
whitespace, and against the parameter segment `:id` the loop of `isMatchPath`
counts it as a match and records `id = "\t"`: `strings.Trim(_, " ")` removes
spaces only.  So `GET /data/<TAB>` is dispatched to `/data/:id`.  This holds
whatever the Unicode fold table is. -/
theorem C7_counterexample :
    hasPrefix ":id".toList ':' = true ∧
      "\t".toList.all Char.isWhitespace = true ∧
      isMatchPath asciiOrbit ["\t".toList] [":id".toList] =
        some (true, [("id".toList, "\t".toList)]) ∧
      summary (selectRoute asciiOrbit dataTable (mkRequest "GET" "/data/\t")) =
        some (some (1, "/data/:id".toList, [("id".toList, "\t".toList)])) ∧
      ∀ fo : Char → Char → Bool,
        isMatchPath fo ["\t".toList] [":id".toList] =
          some (true, [("id".toList, "\t".toList)]) ∧
        summary (selectRoute fo dataTable (mkRequest "GET" "/data/\t")) =
          some (some (1, "/data/:id".toList, [("id".toList, "\t".toList)])) :=
  ⟨by decide, by decide, by decide, rfl, fun _ => ⟨rfl, rfl⟩⟩

/-- C7, amended (space-only parameter values are rejected).  For a route segment
that starts with `:` and a request segment that is empty or made only of the
space character U+0020: the iteration of `isMatchPath` on the pair leaves
`totalMatch` and `paramMap` as they are and ends the loop; so whenever the pair
stands at one position of two segment lists of equal length, `isMatchPath`
returns `false`, with the very map it returns on the segments before that
position, and a route with these segments does not match the request. -/
theorem C7_blank_parameter_rejected (foldOrbit : Char → Char → Bool) (rt rq : Str)
    (hparam : hasPrefix rt ':' = true) (hblank : ∀ c ∈ rq, c = ' ') :
    (∀ (reqs rts : List Str) (totalMatch : Nat) (paramMap : ParamMap),
      isMatchPathLoop foldOrbit (rq :: reqs) (rt :: rts) totalMatch paramMap =
        some (totalMatch, paramMap)) ∧
    (∀ (reqs rts : List Str) (j : Nat), reqs.length = rts.length →
      rts[j]? = some rt → reqs[j]? = some rq →
      ∃ b paramMap, isMatchPath foldOrbit reqs rts = some (false, paramMap) ∧
        isMatchPath foldOrbit (reqs.take j) (rts.take j) = some (b, paramMap)) ∧
    (∀ (H : Type) (req : Request H) (route : routeConfig H) (j : Nat),
      route.pathSegments[j]? = some rt → (requestSegments req.URL.Path)[j]? = some rq →
      routeMatches foldOrbit req route = false) := by
  have hb : nonBlank rq = false := (nonBlank_eq_false_iff rq).mpr hblank
  have hseg : segmentMatches foldOrbit rt rq = false :=
    segmentMatches_colon_blank foldOrbit rt rq hparam hb
  have hfold : equalFold foldOrbit rt rq = false := equalFold_colon_blank foldOrbit rt rq hparam hb
  have hlist : ∀ (reqs rts : List Str) (j : Nat), reqs.length = rts.length →
      rts[j]? = some rt → reqs[j]? = some rq → pathMatches foldOrbit reqs rts = false := by
    intro reqs rts j hlen hrt hrq
    cases hpm : pathMatches foldOrbit reqs rts with
    | false => rfl
    | true =>
      have hall := (pathMatches_iff foldOrbit reqs rts hlen).mp hpm
      have hmem : (rt, rq) ∈ rts.zip reqs :=
        List.getElem?_mem (List.getElem?_zip_eq_some.mpr ⟨hrt, hrq⟩)
      have := hall (rt, rq) hmem
      rw [hseg] at this
      exact absurd this (by simp)
  refine ⟨?_, ?_, ?_⟩
  · intro reqs rts totalMatch paramMap
    have hnb : decide ((trim rq ' ').length > 0) = false := hb
    simp only [isMatchPathLoop, hparam, hnb, Bool.and_false, Bool.false_eq_true, if_false, hfold]
  · intro reqs rts j hlen hrt hrq
    have hjr : j < rts.length := (List.getElem?_eq_some.mp hrt).1
    have hpm := hlist reqs rts j hlen hrt hrq
    have hlen' : (reqs.take j).length ≤ (rts.take j).length := by
      simp only [List.length_take]; omega
    refine ⟨_, _, ?_, isMatchPath_eq foldOrbit (reqs.take j) (rts.take j) hlen'⟩
    rw [isMatchPath_eq foldOrbit reqs rts hlen.le,
      ← matchedPairs_take foldOrbit reqs rts j rt rq hrt hrq hseg]
    have : ((matchedPairs foldOrbit reqs rts).length == rts.length) = false := by
      have h2 : pathMatches foldOrbit reqs rts =
          ((matchedPairs foldOrbit reqs rts).length == rts.length) := by
        simp [pathMatches, isMatchPath_eq foldOrbit reqs rts hlen.le]
      rw [← h2]; exact hpm
    rw [this]
  · intro H req route j hrt hrq
    cases hrm : routeMatches foldOrbit req route with
    | false => rfl
    | true =>
      obtain ⟨hlen, hpath, _⟩ := (routeMatches_iff foldOrbit req route).mp hrm
      rw [hlist _ _ j hlen.symm hrt hrq] at hpath
      exact absurd hpath (by simp)

/-- Witness for C7: the parameter segment `:id` and the request segment of
two spaces. -/
theorem C7_blank_parameter_rejected_witness :
    (∀ (reqs rts : List Str) (totalMatch : Nat) (paramMap : ParamMap),
      isMatchPathLoop asciiOrbit ("  ".toList :: reqs) (":id".toList :: rts) totalMatch paramMap =
        some (totalMatch, paramMap)) ∧
    (∀ (reqs rts : List Str) (j : Nat), reqs.length = rts.length →
      rts[j]? = some ":id".toList → reqs[j]? = some "  ".toList →
      ∃ b paramMap, isMatchPath asciiOrbit reqs rts = some (false, paramMap) ∧
        isMatchPath asciiOrbit (reqs.take j) (rts.take j) = some (b, paramMap)) ∧
    (∀ (H : Type) (req : Request H) (route : routeConfig H) (j : Nat),
      route.pathSegments[j]? = some ":id".toList →
      (requestSegments req.URL.Path)[j]? = some "  ".toList →
      routeMatches asciiOrbit req route = false) :=
  C7_blank_parameter_rejected asciiOrbit ":id".toList "  ".toList (by decide) (by decide)

/-! ## Captured values are never empty -/

theorem foldl_captureStep_nonBlank : ∀ (l : List (Str × Str)) (acc : ParamMap),
    (∀ e ∈ acc, nonBlank e.2 = true) → ∀ e ∈ l.foldl captureStep acc, nonBlank e.2 = true := by
  intro l
  induction l with
  | nil => intro acc h e he; exact h e he
  | cons p ps ih =>
    intro acc h
    simp only [List.foldl_cons]
    apply ih
    intro e he
    by_cases hc : (hasPrefix p.1 ':' && nonBlank p.2) = true
    · simp only [captureStep, hc, if_true] at he
      rcases mem_mapSet _ _ _ _ he with he | he
      · exact h e he
      · rw [he]
        simp only [Bool.and_eq_true] at hc
        exact hc.2
    · simp only [captureStep, hc, Bool.false_eq_true, if_false] at he
      exact h e he

/-- C8 (no empty captured value).  Every value of the parameter map of a
selected route is a non-empty string; a route that has a parameter segment at
a position where the request segment is empty does not match the request and
is not selected, as `/data/:id/item` for the request `/data//item`. -/
theorem C8_no_empty_captured_value {H : Type} (foldOrbit : Char → Char → Bool) (r : router H)
    (req : Request H) :
    (∀ t, selectRoute foldOrbit r req = some (some t) → ∀ e ∈ t.paramMap, e.2 ≠ []) ∧
    (∀ (route : routeConfig H) (j : Nat) (rt : Str), route.pathSegments[j]? = some rt →
      hasPrefix rt ':' = true → (requestSegments req.URL.Path)[j]? = some [] →
      routeMatches foldOrbit req route = false ∧
      ¬ ∃ t, selectRoute foldOrbit r req = some (some t) ∧ t.route = route) ∧
    routeMatches foldOrbit (mkRequest "GET" "/data//item")
      { httpMethod := "GET".toList, path := "/data/:id/item".toList,
        pathSegments := ["".toList, "data".toList, ":id".toList, "item".toList],
        handler := 2 } = false ∧
    selectRoute foldOrbit dataTable (mkRequest "GET" "/data//item") = some none := by
  refine ⟨?_, ?_, rfl, rfl⟩
  · intro t ht e he hempty
    obtain ⟨_, hpm, _, _⟩ := (selectRoute_some_iff foldOrbit r req t).mp ht
    rw [hpm] at he
    have := foldl_captureStep_nonBlank _ [] (by intro e he; simp at he) e he
    rw [hempty] at this
    exact absurd this (by decide)
  · intro route j rt hrt hp hrq
    have hfalse : routeMatches foldOrbit req route = false := by
      cases hrm : routeMatches foldOrbit req route with
      | false => rfl
      | true =>
        obtain ⟨hlen, hpath, _⟩ := (routeMatches_iff foldOrbit req route).mp hrm
        have hall := (pathMatches_iff foldOrbit _ _ hlen.symm).mp hpath
        have hmem : (rt, ([] : Str)) ∈ route.pathSegments.zip (requestSegments req.URL.Path) :=
          List.getElem?_mem (List.getElem?_zip_eq_some.mpr ⟨hrt, hrq⟩)
        have := nonBlank_of_segmentMatches foldOrbit rt [] (hall _ hmem) hp
        exact absurd this (by decide)
    refine ⟨hfalse, ?_⟩
    rintro ⟨t, ht, htr⟩
    obtain ⟨_, _, hm, _⟩ := (selectRoute_some_iff foldOrbit r req t).mp ht
    rw [htr, hfalse] at hm
    exact absurd hm (by simp)

/-! ## Literal segments -/

theorem toNat_ofNat_small (n : Nat) (h : n < 0xd800) : (Char.ofNat n).toNat = n := by
  have hv : n.isValidChar := Or.inl h
  simp only [Char.ofNat, hv, dite_true, Char.toNat, Char.ofNatAux]
  simp [UInt32.toNat]

theorem char_eq_of_toNat_eq (a b : Char) (h : a.toNat = b.toNat) : a = b := by
  rw [← Char.ofNat_toNat a, ← Char.ofNat_toNat b, h]

theorem toLower_toNat (c : Char) :
    c.toLower.toNat = if 65 ≤ c.toNat ∧ c.toNat ≤ 90 then c.toNat + 32 else c.toNat := by
  unfold Char.toLower
  by_cases h : c.toNat ≥ 65 ∧ c.toNat ≤ 90
  · have h' : 65 ≤ c.toNat ∧ c.toNat ≤ 90 := h
    simp only [h, h', and_self, if_true]
    exact toNat_ofNat_small _ (by omega)
  · have h' : ¬ (65 ≤ c.toNat ∧ c.toNat ≤ 90) := h
    simp only [h, h', if_false]

theorem runeEqualFold_of_toLower (fo : Char → Char → Bool) (a b : Char)
    (h : a.toLower = b.toLower) : runeEqualFold fo a b = true := by
  have hn := congrArg Char.toNat h
  rw [toLower_toNat, toLower_toNat] at hn
  unfold runeEqualFold
  by_cases hab : b = a
  · simp [hab]
  · have hne : a.toNat ≠ b.toNat := fun e => hab (char_eq_of_toNat_eq a b e).symm
    rw [if_neg hab]
    by_cases hlt : b.toNat < a.toNat
    · simp only [hlt, if_true]
      have h128 : a.toNat < 128 := by split_ifs at hn <;> omega
      simp only [h128, if_true, decide_eq_true_eq]
      split_ifs at hn <;> omega
    · simp only [hlt, if_false]
      have h128 : b.toNat < 128 := by split_ifs at hn <;> omega
      simp only [h128, if_true, decide_eq_true_eq]
      split_ifs at hn <;> omega

theorem equalFold_of_toLower (fo : Char → Char → Bool) (s t : Str)
    (h : List.Forall₂ (fun a b => a.toLower = b.toLower) s t) : equalFold fo s t = true := by
  induction h with
  | nil => rfl
  | cons hab _ ih => simp [equalFold, runeEqualFold_of_toLower fo _ _ hab, ih]

/-- C9 (case-insensitive literal matching).  For a route segment that does not
start with `:`, the pair (route segment, request segment) counts as a match
exactly when `strings.EqualFold` holds of the two: the iteration of
`isMatchPath` goes on with `totalMatch + 1` when it does and ends the loop
when it does not.  Two segments that agree once their ASCII letters are
lower-cased are such a pair: `Data` matches `data` and `DATA` (and not `Date`),
and `GET /DATA` is dispatched to `/data`. -/
theorem C9_case_insensitive_literal (foldOrbit : Char → Char → Bool) (rt rq : Str)
    (hliteral : hasPrefix rt ':' = false) :
    (segmentMatches foldOrbit rt rq = true ↔ equalFold foldOrbit rt rq = true) ∧
    (∀ (reqs rts : List Str) (totalMatch : Nat) (paramMap : ParamMap),
      isMatchPathLoop foldOrbit (rq :: reqs) (rt :: rts) totalMatch paramMap =
        if equalFold foldOrbit rt rq = true then
          isMatchPathLoop foldOrbit reqs rts (totalMatch + 1) paramMap
        else some (totalMatch, paramMap)) ∧
    (List.Forall₂ (fun a b => a.toLower = b.toLower) rt rq →
      segmentMatches foldOrbit rt rq = true) ∧
    segmentMatches foldOrbit "Data".toList "data".toList = true ∧
    segmentMatches foldOrbit "Data".toList "DATA".toList = true ∧
    segmentMatches foldOrbit "Data".toList "Date".toList = false ∧
    summary (selectRoute foldOrbit dataTable (mkRequest "GET" "/DATA")) =
      some (some (0, "/data".toList, [])) := by
  have hiff : segmentMatches foldOrbit rt rq = true ↔ equalFold foldOrbit rt rq = true := by
    simp [segmentMatches, hliteral]
  refine ⟨hiff, ?_, ?_, rfl, rfl, rfl, rfl⟩
  · intro reqs rts totalMatch paramMap
    simp only [isMatchPathLoop, hliteral, Bool.false_and, Bool.false_eq_true, if_false]
  · intro h
    exact hiff.mpr (equalFold_of_toLower foldOrbit rt rq h)

/-- Witness for C9: the literal route segment `Data` and the request segment
`DATA`. -/
theorem C9_case_insensitive_literal_witness :
    segmentMatches asciiOrbit "Data".toList "DATA".toList = true ∧
      equalFold asciiOrbit "Data".toList "DATA".toList = true :=
  ⟨((C9_case_insensitive_literal asciiOrbit "Data".toList "DATA".toList (by decide)).2.2.1)
      (by simp [String.toList, Char.toLower]),
    by decide⟩

/-! ## The not-found response -/

/-- C10 (not-found response).  When no route of the table matches the request,
`handle` completes, its only action on the response writer is
`WriteHeader(404)`, which leaves the headers and the body as they were and sets
the status of a fresh writer to 404, and it invokes no handler; on a fresh
writer the response has status 404, an empty body and no header at all, so no
`x-trace-id`. -/
theorem C10_not_found {H : Type} (foldOrbit : Char → Char → Bool)
    (exec : H → ResponseWriter → Request H → ResponseWriter) (r : router H) (traceId : Str)
    (w : ResponseWriter) (req : Request H)
    (hnone : ∀ route ∈ r.routes, routeMatches foldOrbit req route = false) :
    handle foldOrbit exec r traceId w req =
      some { respWriter := w.WriteHeader 404, logged := [notFoundLogLine req], invoked := [] } ∧
    (w.WriteHeader 404).header = w.header ∧
    (w.WriteHeader 404).body = w.body ∧
    (w.status = none → (w.WriteHeader 404).status = some 404) ∧
    handle foldOrbit exec r traceId newRecorder req =
      some { respWriter := { header := [], status := some 404, body := [] }
             logged := [notFoundLogLine req], invoked := [] } ∧
    (newRecorder.WriteHeader 404).headerValues "x-trace-id".toList = [] := by
  have hsel : selectRoute foldOrbit r req = some none :=
    (selectRoute_none_iff foldOrbit r req).mpr hnone
  refine ⟨by simp only [handle, hsel], ?_, ?_, ?_, ?_, rfl⟩
  · unfold ResponseWriter.WriteHeader; split <;> rfl
  · unfold ResponseWriter.WriteHeader; split <;> rfl
  · intro hs
    unfold ResponseWriter.WriteHeader
    rw [hs]
  · simp only [handle, hsel]
    rfl

/-- Witness for C10: `PUT /data` with only `GET /data` and `POST /data`
registered (the second case of `testHandleNotMatch`). -/
theorem C10_not_found_witness :
    handle asciiOrbit (fun _ w _ => w) getPostTable "trace".toList newRecorder
        (mkRequest "PUT" "/data") =
      some { respWriter := { header := [], status := some 404, body := [] }
             logged := ["Route not found: PUT /data\n".toList], invoked := [] } :=
  (C10_not_found asciiOrbit (fun _ w _ => w) getPostTable "trace".toList newRecorder
    (mkRequest "PUT" "/data") (by decide)).2.2.2.2.1

/-! ## The matched request -/

theorem handle_of_selected {H : Type} (fo : Char → Char → Bool)
    (exec : H → ResponseWriter → Request H → ResponseWriter) (r : router H) (traceId : Str)
    (w : ResponseWriter) (req : Request H) (t : Target H)
    (hsel : selectRoute fo r req = some (some t)) :
    handle fo exec r traceId w req =
      some { respWriter := exec t.route.handler (w.headerAdd "x-trace-id".toList traceId)
               (enrich req t traceId)
             logged := [routeLogLine traceId req]
             invoked := [(t.route.handler, enrich req t traceId)] } := by
  simp only [handle, hsel, enrich]

theorem handle_of_none {H : Type} (fo : Char → Char → Bool)
    (exec : H → ResponseWriter → Request H → ResponseWriter) (r : router H) (traceId : Str)
    (w : ResponseWriter) (req : Request H) (hsel : selectRoute fo r req = some none) :
    handle fo exec r traceId w req =
      some { respWriter := w.WriteHeader 404, logged := [notFoundLogLine req], invoked := [] } := by
  simp only [handle, hsel]

theorem headerValues_headerAdd (w : ResponseWriter) (key value : Str) :
    (w.headerAdd key value).headerValues key = w.headerValues key ++ [value] := by
  simp [ResponseWriter.headerAdd, ResponseWriter.headerValues, List.filter_append]

/-- C11 (matched-request metadata).  When `handle` selects a route `R` for a
request and `traceId` is the trace id generated for it: `handle` completes; the
handler of `R` and no other is invoked, once, on a response writer to which
the header `x-trace-id: traceId` has already been added (the only value of that
header on a writer that had none); the request it receives is the incoming one
with a context that holds `R` itself (the route of the table at the selected
index: same method, path, segments), the parameter map of the match and
`traceId`. -/
theorem C11_matched_request_metadata {H : Type} (foldOrbit : Char → Char → Bool)
    (exec : H → ResponseWriter → Request H → ResponseWriter) (r : router H) (traceId : Str)
    (w : ResponseWriter) (req : Request H) (t : Target H)
    (hsel : selectRoute foldOrbit r req = some (some t)) :
    ∃ world, handle foldOrbit exec r traceId w req = some world ∧
      world.invoked = [(t.route.handler, enrich req t traceId)] ∧
      world.respWriter =
        exec t.route.handler (w.headerAdd "x-trace-id".toList traceId) (enrich req t traceId) ∧
      (w.headerAdd "x-trace-id".toList traceId).headerValues "x-trace-id".toList =
        w.headerValues "x-trace-id".toList ++ [traceId] ∧
      (w.headerValues "x-trace-id".toList = [] →
        (w.headerAdd "x-trace-id".toList traceId).headerValues "x-trace-id".toList = [traceId]) ∧
      (enrich req t traceId).Method = req.Method ∧
      (enrich req t traceId).URL = req.URL ∧
      (enrich req t traceId).ctx.route = some t.route ∧
      r.routes[t.index]? = some t.route ∧
      (enrich req t traceId).ctx.pathParam = some t.paramMap ∧
      isMatchPath foldOrbit (requestSegments req.URL.Path) t.route.pathSegments =
        some (true, t.paramMap) ∧
      (enrich req t traceId).ctx.traceId = some traceId := by
  obtain ⟨hk, hpm, hm, _⟩ := (selectRoute_some_iff foldOrbit r req t).mp hsel
  obtain ⟨hlen, hpath, _⟩ := (routeMatches_iff foldOrbit req t.route).mp hm
  refine ⟨_, handle_of_selected foldOrbit exec r traceId w req t hsel, rfl, rfl,
    headerValues_headerAdd _ _ _, ?_, rfl, rfl, rfl, hk, rfl, ?_, rfl⟩
  · intro h
    rw [headerValues_headerAdd, h]
    rfl
  · have hfull := (matchedPairs_full_iff foldOrbit _ _ hlen.symm).mpr
      ((pathMatches_iff foldOrbit _ _ hlen.symm).mp hpath)
    have hsub : (matchedPairs foldOrbit (requestSegments req.URL.Path) t.route.pathSegments).Sublist
        (t.route.pathSegments.zip (requestSegments req.URL.Path)) := List.takeWhile_sublist _
    have heq := hsub.eq_of_length (by rw [hfull]; simp [hlen])
    rw [isMatchPath_eq foldOrbit _ _ hlen.ge, hpm, capturedMap, heq]
    simp [hlen]

/-- Witness for C11: `GET /data/DAT-123_abc/item` in the table of
`testHandleMatch`, with a handler that leaves the response writer as it is. -/
theorem C11_matched_request_metadata_witness :
    ∃ world, handle asciiOrbit (fun _ w _ => w) matchTable "trace-1".toList newRecorder
        (mkRequest "GET" "/data/DAT-123_abc/item") = some world ∧
      world.invoked.map Prod.fst = [6] ∧
      world.respWriter.header = [("x-trace-id".toList, "trace-1".toList)] ∧
      world.invoked.map (fun c => c.2.ctx.pathParam) =
        [some [("id".toList, "DAT-123_abc".toList)]] ∧
      world.invoked.map (fun c => c.2.ctx.route.map routeConfig.path) =
        [some "/data/:id/item".toList] ∧
      world.invoked.map (fun c => c.2.ctx.traceId) = [some "trace-1".toList] := by
  obtain ⟨world, hw, hinv, hresp, _⟩ :=
    C11_matched_request_metadata asciiOrbit (fun _ w _ => w) matchTable "trace-1".toList
      newRecorder (mkRequest "GET" "/data/DAT-123_abc/item")
      { index := 6
        route := { httpMethod := "GET".toList, path := "/data/:id/item".toList,
                   pathSegments := ["".toList, "data".toList, ":id".toList, "item".toList],
                   handler := 6 }
        paramMap := [("id".toList, "DAT-123_abc".toList)] } rfl
  refine ⟨world, hw, ?_, ?_, ?_, ?_, ?_⟩
  · rw [hinv]; rfl
  · rw [hresp]; rfl
  · rw [hinv]; rfl
  · rw [hinv]; rfl
  · rw [hinv]; rfl

/-! ## The root path -/

/-- C12 (root equivalence).  For every route table and method, the request for
`/` and the request for the empty path select the same route with the same
parameter map, or both none; when the first route of the table is one
registered as `/` with that method, both select it (index 0) with an empty
parameter map, as in `testHandleMatch`. -/
theorem C12_root_equivalence {H : Type} (foldOrbit : Char → Char → Bool) (r : router H)
    (m u₁ u₂ : Str) (c₁ c₂ : Context H) :
    selectRoute foldOrbit r { Method := m, URL := { Path := "/".toList, text := u₁ }, ctx := c₁ } =
      selectRoute foldOrbit r { Method := m, URL := { Path := "".toList, text := u₂ }, ctx := c₂ } ∧
    (∀ (rest : List (routeConfig H)) (h : H),
      r.routes = (Registration.route { method := m, path := "/".toList, handler := h }) :: rest →
      selectRoute foldOrbit r
          { Method := m, URL := { Path := "/".toList, text := u₁ }, ctx := c₁ } =
        some (some { index := 0
                     route := Registration.route { method := m, path := "/".toList, handler := h }
                     paramMap := [] }) ∧
      selectRoute foldOrbit r
          { Method := m, URL := { Path := "".toList, text := u₂ }, ctx := c₂ } =
        some (some { index := 0
                     route := Registration.route { method := m, path := "/".toList, handler := h }
                     paramMap := [] })) ∧
    summary (selectRoute foldOrbit matchTable (mkRequest "GET" "")) =
      some (some (0, "/".toList, [])) ∧
    summary (selectRoute foldOrbit matchTable (mkRequest "GET" "/")) =
      some (some (0, "/".toList, [])) := by
  have hsame : selectRoute foldOrbit r
        { Method := m, URL := { Path := "/".toList, text := u₁ }, ctx := c₁ } =
      selectRoute foldOrbit r
        { Method := m, URL := { Path := "".toList, text := u₂ }, ctx := c₂ } :=
    selectRoute_append_slash foldOrbit r m [] u₁ u₂ c₁ c₂
  refine ⟨hsame, ?_, rfl, rfl⟩
  intro rest h hroutes
  have hempty : selectRoute foldOrbit r
        { Method := m, URL := { Path := "".toList, text := u₂ }, ctx := c₂ } =
      some (some { index := 0
                   route := Registration.route { method := m, path := "/".toList, handler := h }
                   paramMap := [] }) := by
    rw [selectRoute_some_iff]
    refine ⟨by rw [hroutes]; simp, rfl, ?_, by intro j rj hj; simp at hj⟩
    rw [routeMatches_iff]
    refine ⟨rfl, rfl, ?_⟩
    simp only [isMethodMatch, Registration.route, equalFold_refl]
  exact ⟨hsame.trans hempty, hempty⟩

/-! ## No panic in the matching path -/

theorem isMatchPath_total (fo : Char → Char → Bool) (reqs rts : List Str)
    (hlen : reqs.length ≤ rts.length) : ∃ res, isMatchPath fo reqs rts = some res :=
  ⟨_, isMatchPath_eq fo reqs rts hlen⟩

/-- C13 (no panic in the matching path).  For every route table (in particular
every table built by `AddRoute`) and every request: `isMatchPath` returns,
without an out-of-range access to `routeSegments[i]`, on segment lists of equal
length, hence on every call `handle` makes, which come after the length test;
the scan returns; and `handle` completes in exactly one of two ways, a selected
route whose handler is invoked, or no route, status 404 and no handler.  The
length test is what keeps the access in range: on a shorter route whose
segments all match, `isMatchPath` alone would index out of range. -/
theorem C13_no_panic {H : Type} (foldOrbit : Char → Char → Bool)
    (exec : H → ResponseWriter → Request H → ResponseWriter) (r : router H) (traceId : Str)
    (w : ResponseWriter) (req : Request H) :
    (∀ reqs rts : List Str, reqs.length = rts.length →
      ∃ res, isMatchPath foldOrbit reqs rts = some res) ∧
    (∀ route ∈ r.routes, route.pathSegments.length = (requestSegments req.URL.Path).length →
      ∃ res, isMatchPath foldOrbit (requestSegments req.URL.Path) route.pathSegments = some res) ∧
    (∃ o, selectRoute foldOrbit r req = some o) ∧
    (∃ world, handle foldOrbit exec r traceId w req = some world ∧
      ((∃ t, selectRoute foldOrbit r req = some (some t) ∧
          world.invoked = [(t.route.handler, enrich req t traceId)]) ∨
        (selectRoute foldOrbit r req = some none ∧ world.invoked = [] ∧
          world.respWriter = w.WriteHeader 404)) ∧
      ¬ ((∃ t, selectRoute foldOrbit r req = some (some t)) ∧
          selectRoute foldOrbit r req = some none)) ∧
    isMatchPath foldOrbit ["a".toList, "b".toList] ["a".toList] = none := by
  refine ⟨?_, ?_, selectRoute_total foldOrbit r req, ?_, rfl⟩
  · intro reqs rts hlen
    exact isMatchPath_total foldOrbit reqs rts hlen.le
  · intro route _ hlen
    exact isMatchPath_total foldOrbit _ _ hlen.ge
  · obtain ⟨o, ho⟩ := selectRoute_total foldOrbit r req
    cases o with
    | none =>
      refine ⟨_, handle_of_none foldOrbit exec r traceId w req ho, Or.inr ⟨ho, rfl, rfl⟩, ?_⟩
      rintro ⟨⟨t, ht⟩, _⟩
      rw [ho] at ht
      simp at ht
    | some t =>
      refine ⟨_, handle_of_selected foldOrbit exec r traceId w req t ho,
        Or.inl ⟨t, ho, rfl⟩, ?_⟩
      rintro ⟨_, hn⟩
      rw [ho] at hn
      simp at hn

/-! ## Registration -/

theorem addRoutes_routes {H : Type} : ∀ (regs : List (Registration H)) (r : router H),
    (addRoutes r regs).routes = r.routes ++ regs.map Registration.route := by
  intro regs
  induction regs with
  | nil => intro r; simp [addRoutes]
  | cons reg regs ih =>
    intro r
    have := ih (AddRoute r reg.method reg.path reg.handler)
    simp only [addRoutes, List.foldl_cons] at this ⊢
    rw [this]
    simp [AddRoute, Registration.route]

theorem registerAll_routes {H : Type} (regs : List (Registration H)) :
    (registerAll regs).routes = regs.map Registration.route := by
  simp [registerAll, addRoutes_routes, NewRouter]

theorem WellFormed_registerAll {H : Type} (regs : List (Registration H)) :
    WellFormed (registerAll regs) := by
  intro route hmem
  rw [registerAll_routes, List.mem_map] at hmem
  obtain ⟨reg, _, hreg⟩ := hmem
  rw [← hreg]
  rfl

/-- C14 (registration is strictly additive).  `AddRoute` is total; it leaves
the routes registered so far in place and in order and appends one route that
holds the given method, the path as given, the path with its trailing slashes
trimmed and split on `/` as segments, and the given handler; so the table grows
by exactly one, and after `n` calls on a new router it holds the `n` routes in
call order (six after the six calls of `TestAddRoute`). -/
theorem C14_registration_additive {H : Type} (r : router H) (method path : Str) (handler : H)
    (regs : List (Registration H)) :
    (AddRoute r method path handler).routes =
      r.routes ++ [{ httpMethod := method, path := path,
                     pathSegments := split (trimRight path '/') '/', handler := handler }] ∧
    (AddRoute r method path handler).routes.length = r.routes.length + 1 ∧
    (∀ i : Nat, i < r.routes.length →
      (AddRoute r method path handler).routes[i]? = r.routes[i]?) ∧
    (AddRoute r method path handler).routes[r.routes.length]? =
      some { httpMethod := method, path := path,
             pathSegments := split (trimRight path '/') '/', handler := handler } ∧
    (registerAll regs).routes = regs.map Registration.route ∧
    (registerAll regs).routes.length = regs.length ∧
    (∀ (i : Nat) (reg : Registration H), regs[i]? = some reg →
      (registerAll regs).routes[i]? =
        some { httpMethod := reg.method, path := reg.path,
               pathSegments := split (trimRight reg.path '/') '/', handler := reg.handler }) ∧
    (NewRouter : router H).routes = [] ∧
    (registerAll testAddRouteRegs).routes.length = 6 := by
  refine ⟨rfl, by simp [AddRoute], ?_, by simp [AddRoute], registerAll_routes regs,
    by simp [registerAll_routes], ?_, rfl, rfl⟩
  · intro i hi
    simp only [AddRoute]
    rw [List.getElem?_append_left hi]
  · intro i reg hreg
    rw [registerAll_routes, List.getElem?_map, hreg]
    rfl

/-! ## Duplicate routes -/

theorem routeMatches_congr {H : Type} (fo : Char → Char → Bool) (req : Request H)
    (r₁ r₂ : routeConfig H) (hs : r₁.pathSegments = r₂.pathSegments)
    (hm : r₁.httpMethod = r₂.httpMethod) : routeMatches fo req r₁ = routeMatches fo req r₂ := by
  simp only [routeMatches, candidateMatches, isMethodMatch, hs, hm]

theorem later_duplicate_not_selected {H : Type} (fo : Char → Char → Bool) (r : router H)
    (req : Request H) (i j : Nat) (ri rj : routeConfig H)
    (hi : r.routes[i]? = some ri) (hj : r.routes[j]? = some rj) (hij : i < j)
    (hs : ri.pathSegments = rj.pathSegments) (hm : ri.httpMethod = rj.httpMethod) :
    ¬ ∃ t, selectRoute fo r req = some (some t) ∧ t.index = j := by
  rintro ⟨t, ht, hti⟩
  obtain ⟨hk, _, hmatch, hbefore⟩ := (selectRoute_some_iff fo r req t).mp ht
  rw [hti, hj] at hk
  have hrj : routeMatches fo req rj = true := by
    rw [Option.some.inj hk]; exact hmatch
  have hri := hbefore i ri (by omega) hi
  rw [routeMatches_congr fo req ri rj hs hm, hrj] at hri
  exact absurd hri (by simp)

/-- C15 (duplicates resolve by registration order).  When two calls of
`AddRoute` in a registration sequence give the same method and the same path,
both routes are in the table, at the positions of the two calls, and for no
request does `handle` select the later one. -/
theorem C15_duplicates_by_order {H : Type} (foldOrbit : Char → Char → Bool)
    (regs : List (Registration H)) (i j : Nat) (ri rj : Registration H) (req : Request H)
    (hi : regs[i]? = some ri) (hj : regs[j]? = some rj) (hij : i < j)
    (hmethod : ri.method = rj.method) (hpath : ri.path = rj.path) :
    (registerAll regs).routes.length = regs.length ∧
    (registerAll regs).routes[i]? = some ri.route ∧
    (registerAll regs).routes[j]? = some rj.route ∧
    ¬ ∃ t, selectRoute foldOrbit (registerAll regs) req = some (some t) ∧ t.index = j := by
  have hri : (registerAll regs).routes[i]? = some ri.route := by
    rw [registerAll_routes, List.getElem?_map, hi]; rfl
  have hrj : (registerAll regs).routes[j]? = some rj.route := by
    rw [registerAll_routes, List.getElem?_map, hj]; rfl
  refine ⟨by simp [registerAll_routes], hri, hrj, ?_⟩
  apply later_duplicate_not_selected foldOrbit _ req i j ri.route rj.route hri hrj hij
  · simp only [Registration.route, hpath]
  · exact hmethod

/-- Witness for C15: `GET /data` registered twice, request `GET /data`. -/
theorem C15_duplicates_by_order_witness :
    (registerAll dupRegs).routes.length = 2 ∧
      (registerAll dupRegs).routes[0]? =
        some (Registration.route
          { method := "GET".toList, path := "/data".toList, handler := 0 }) ∧
      (registerAll dupRegs).routes[1]? =
        some (Registration.route
          { method := "GET".toList, path := "/data".toList, handler := 1 }) ∧
      ¬ ∃ t, selectRoute asciiOrbit (registerAll dupRegs) (mkRequest "GET" "/data") =
          some (some t) ∧ t.index = 1 :=
  C15_duplicates_by_order asciiOrbit dupRegs 0 1 _ _ (mkRequest "GET" "/data") rfl rfl
    (by decide) rfl rfl

/-! ## Server construction validates durations -/

/-- C16 (server construction validates durations).  With the configured values
being strings: when the `server.readTimeout` string does not parse as a
duration, `NewServer` returns no server and an error; when it parses and the
`server.writeTimeout` string does not, `NewServer` returns no server and an
error; when both parse, `NewServer` returns, with no error, a server whose read
and write timeouts are the parsed values (and whose address is the configured
one).  The four cases of `TestNewServer` come out as the test expects. -/
theorem C16_new_server_validates_durations {H : Type} (parseDuration : Str → Option Int)
    (configOrDefault : Str → ConfigValue → ConfigValue) (r : router H) :
    (∀ readText : Str,
      configOrDefault "server.readTimeout".toList (ConfigValue.str "1m".toList) =
        ConfigValue.str readText →
      parseDuration readText = none →
      NewServer parseDuration configOrDefault r = some (none, some readTimeoutInvalid)) ∧
    (∀ (readText writeText : Str) (readTimeout : Int),
      configOrDefault "server.readTimeout".toList (ConfigValue.str "1m".toList) =
        ConfigValue.str readText →
      configOrDefault "server.writeTimeout".toList (ConfigValue.str "1m".toList) =
        ConfigValue.str writeText →
      parseDuration readText = some readTimeout →
      parseDuration writeText = none →
      NewServer parseDuration configOrDefault r = some (none, some writeTimeoutInvalid)) ∧
    (∀ (readText writeText addr : Str) (readTimeout writeTimeout : Int),
      configOrDefault "server.readTimeout".toList (ConfigValue.str "1m".toList) =
        ConfigValue.str readText →
      configOrDefault "server.writeTimeout".toList (ConfigValue.str "1m".toList) =
        ConfigValue.str writeText →
      configOrDefault "server.port".toList (ConfigValue.str ":8080".toList) =
        ConfigValue.str addr →
      parseDuration readText = some readTimeout →
      parseDuration writeText = some writeTimeout →
      NewServer parseDuration configOrDefault r =
        some (some { Addr := addr, ReadTimeout := readTimeout,
                     WriteTimeout := writeTimeout, Handler := r }, none)) ∧
    NewServer sampleParseDuration defaultConfig r =
      some (some { Addr := ":8080".toList, ReadTimeout := 60000000000,
                   WriteTimeout := 60000000000, Handler := r }, none) ∧
    NewServer sampleParseDuration (serverConfig ":9000" "fiveMinute" "10m") r =
      some (none, some readTimeoutInvalid) ∧
    NewServer sampleParseDuration (serverConfig ":9000" "5m" "tenMinutes") r =
      some (none, some writeTimeoutInvalid) ∧
    NewServer sampleParseDuration (serverConfig ":9000" "5m" "10m") r =
      some (some { Addr := ":9000".toList, ReadTimeout := 300000000000,
                   WriteTimeout := 600000000000, Handler := r }, none) := by
  refine ⟨?_, ?_, ?_, rfl, rfl, rfl, rfl⟩
  · intro readText hr hp
    simp only [NewServer, hr, hp]
  · intro readText writeText readTimeout hr hw hpr hpw
    simp only [NewServer, hr, hw, hpr, hpw]
  · intro readText writeText addr readTimeout writeTimeout hr hw ha hpr hpw
    simp only [NewServer, hr, hw, ha, hpr, hpw]

/-! ## Short-circuit and full scan -/

theorem fullScanMatchSpace_iff (fo : Char → Char → Bool) (reqs rts : List Str) :
    fullScanMatchSpace fo reqs rts = true ↔
      ∀ i, i < rts.length → positionMatchesSpace fo reqs rts i = true := by
  simp [fullScanMatchSpace, List.all_eq_true]

theorem positionMatchesSpace_eq (fo : Char → Char → Bool) (reqs rts : List Str) (i : Nat)
    (rt rq : Str) (hrt : rts[i]? = some rt) (hrq : reqs[i]? = some rq) :
    positionMatchesSpace fo reqs rts i = segmentMatches fo rt rq := by
  simp only [positionMatchesSpace, hrt, hrq, segmentMatches]

theorem all_positions_iff (fo : Char → Char → Bool) (reqs rts : List Str)
    (hlen : reqs.length = rts.length) :
    (∀ i, i < rts.length → positionMatchesSpace fo reqs rts i = true) ↔
      ∀ p ∈ rts.zip reqs, segmentMatches fo p.1 p.2 = true := by
  constructor
  · intro h p hp
    obtain ⟨i, hi⟩ := List.mem_iff_getElem?.mp hp
    obtain ⟨hrt, hrq⟩ := List.getElem?_zip_eq_some.mp hi
    have hlt : i < rts.length := (List.getElem?_eq_some.mp hrt).1
    rw [← positionMatchesSpace_eq fo reqs rts i p.1 p.2 hrt hrq]
    exact h i hlt
  · intro h i hi
    have hi2 : i < reqs.length := by omega
    have hrt : rts[i]? = some rts[i] := List.getElem?_eq_getElem hi
    have hrq : reqs[i]? = some reqs[i] := List.getElem?_eq_getElem hi2
    rw [positionMatchesSpace_eq fo reqs rts i _ _ hrt hrq]
    exact h (rts[i], reqs[i]) (List.getElem?_mem (List.getElem?_zip_eq_some.mpr ⟨hrt, hrq⟩))

/-- C17, as stated, fails.  Take the one route segment `:id` and the one
request segment `"\t"`, lists of equal length.  `isMatchPath` returns `true`
(`strings.Trim(_, " ")` leaves the tab, so the segment is captured), but
position 0 does not match in the words of the specification: the request
segment is empty after trimming whitespace, and `:id` and `"\t"` are not equal
case-insensitively.  So `isMatchPath` is `true` while the full scan is `false`,
whatever the Unicode fold table is. -/
theorem C17_counterexample :
    ["\t".toList].length = [":id".toList].length ∧
      hasPrefix ":id".toList ':' = true ∧
      nonBlankWhitespace "\t".toList = false ∧
      equalFold asciiOrbit ":id".toList "\t".toList = false ∧
      positionMatches asciiOrbit ["\t".toList] [":id".toList] 0 = false ∧
      fullScanMatch asciiOrbit ["\t".toList] [":id".toList] = false ∧
      isMatchPath asciiOrbit ["\t".toList] [":id".toList] =
        some (true, [("id".toList, "\t".toList)]) ∧
      ¬ (pathMatches asciiOrbit ["\t".toList] [":id".toList] = true ↔
          ∀ i, i < [":id".toList].length →
            positionMatches asciiOrbit ["\t".toList] [":id".toList] i = true) ∧
      ∀ fo : Char → Char → Bool,
        isMatchPath fo ["\t".toList] [":id".toList] =
          some (true, [("id".toList, "\t".toList)]) ∧
        fullScanMatch fo ["\t".toList] [":id".toList] = false := by
  refine ⟨rfl, by decide, by decide, by decide, by decide, by decide, by decide, ?_,
    fun _ => ⟨rfl, rfl⟩⟩
  intro h
  have hp : pathMatches asciiOrbit ["\t".toList] [":id".toList] = true := by decide
  have h0 := h.mp hp 0 (by decide)
  exact absurd h0 (by decide)

/-- C17, amended (short-circuit equals full scan, blankness for the space
character).  On segment lists of equal length, `isMatchPath`, which leaves its
loop at the first segment that does not match and compares the count of
matched segments with the number of route segments, returns, and its boolean
is that of the full scan: it is `true` exactly when every position matches,
where a position matches when the route segment starts with `:` and the
request segment is non-empty after trimming the space character U+0020, or the
two segments are equal case-insensitively. -/
theorem C17_short_circuit_equals_full_scan (foldOrbit : Char → Char → Bool)
    (requestSegments routeSegments : List Str)
    (hlen : requestSegments.length = routeSegments.length) :
    (∃ paramMap, isMatchPath foldOrbit requestSegments routeSegments =
      some (fullScanMatchSpace foldOrbit requestSegments routeSegments, paramMap)) ∧
    (pathMatches foldOrbit requestSegments routeSegments = true ↔
      ∀ i, i < routeSegments.length →
        positionMatchesSpace foldOrbit requestSegments routeSegments i = true) := by
  have hiff : pathMatches foldOrbit requestSegments routeSegments = true ↔
      ∀ i, i < routeSegments.length →
        positionMatchesSpace foldOrbit requestSegments routeSegments i = true := by
    rw [pathMatches_iff foldOrbit _ _ hlen, all_positions_iff foldOrbit _ _ hlen]
  refine ⟨?_, hiff⟩
  have hb : pathMatches foldOrbit requestSegments routeSegments =
      fullScanMatchSpace foldOrbit requestSegments routeSegments := by
    rw [Bool.eq_iff_iff, hiff, fullScanMatchSpace_iff]
  have hm := isMatchPath_eq foldOrbit requestSegments routeSegments hlen.le
  refine ⟨(matchedPairs foldOrbit requestSegments routeSegments).foldl captureStep [], ?_⟩
  rw [← hb, hm]
  simp [pathMatches, hm]

/-- Witness for C17: the segments of `/data/DAT-1/item` against those of
`/data/:id/item` (all positions match) and against those of `/data/:id/list`
(the last position does not). -/
theorem C17_short_circuit_equals_full_scan_witness :
    ((∃ paramMap, isMatchPath asciiOrbit ["".toList, "data".toList, "DAT-1".toList, "item".toList]
          ["".toList, "data".toList, ":id".toList, "item".toList] =
        some (fullScanMatchSpace asciiOrbit ["".toList, "data".toList, "DAT-1".toList, "item".toList]
          ["".toList, "data".toList, ":id".toList, "item".toList], paramMap)) ∧
      (pathMatches asciiOrbit ["".toList, "data".toList, "DAT-1".toList, "item".toList]
          ["".toList, "data".toList, ":id".toList, "item".toList] = true ↔
        ∀ i, i < ["".toList, "data".toList, ":id".toList, "item".toList].length →
          positionMatchesSpace asciiOrbit ["".toList, "data".toList, "DAT-1".toList, "item".toList]
            ["".toList, "data".toList, ":id".toList, "item".toList] i = true)) ∧
    fullScanMatchSpace asciiOrbit ["".toList, "data".toList, "DAT-1".toList, "item".toList]
      ["".toList, "data".toList, ":id".toList, "item".toList] = true ∧
    fullScanMatchSpace asciiOrbit ["".toList, "data".toList, "DAT-1".toList, "item".toList]
      ["".toList, "data".toList, ":id".toList, "list".toList] = false ∧
    isMatchPath asciiOrbit ["".toList, "data".toList, "DAT-1".toList, "item".toList]
      ["".toList, "data".toList, ":id".toList, "list".toList] =
        some (false, [("id".toList, "DAT-1".toList)]) :=
  ⟨C17_short_circuit_equals_full_scan asciiOrbit
      ["".toList, "data".toList, "DAT-1".toList, "item".toList]
      ["".toList, "data".toList, ":id".toList, "item".toList] (by decide),
    by decide, by decide, by decide⟩

/-! ## Any number of trailing slashes -/

theorem trimRight_append_replicate (s : Str) (c : Char) (k : Nat) :
    trimRight (s ++ List.replicate k c) c = trimRight s c := by
  induction k with
  | zero => simp
  | succ k ih =>
    rw [List.replicate_succ', ← List.append_assoc, trimRight_append_cut, ih]

/-- C18 (any number of trailing slashes is insignificant).  For every route
table, method, path `P` and number `k`, the request for `P` followed by `k`
slashes selects the same route with the same parameter map as the request for
`P`, and `AddRoute` computes the same segments for `P` followed by `k` slashes
as for `P`; `//` resolves to the root route and `/data//` to `/data`. -/
theorem C18_trailing_slashes_insignificant {H : Type} (foldOrbit : Char → Char → Bool)
    (r : router H) (m P u₁ u₂ : Str) (c₁ c₂ : Context H) (k : Nat) (h : H) :
    selectRoute foldOrbit r
        { Method := m, URL := { Path := P ++ List.replicate k '/', text := u₁ }, ctx := c₁ } =
      selectRoute foldOrbit r { Method := m, URL := { Path := P, text := u₂ }, ctx := c₂ } ∧
    split (trimRight (P ++ List.replicate k '/') '/') '/' = split (trimRight P '/') '/' ∧
    (AddRoute r m (P ++ List.replicate k '/') h).routes.map routeConfig.pathSegments =
      (AddRoute r m P h).routes.map routeConfig.pathSegments ∧
    summary (selectRoute foldOrbit matchTable (mkRequest "GET" "//")) =
      some (some (0, "/".toList, [])) ∧
    summary (selectRoute foldOrbit matchTable (mkRequest "GET" "/data//")) =
      some (some (1, "/data".toList, [])) := by
  have hseg : requestSegments (P ++ List.replicate k '/') = requestSegments P := by
    simp only [requestSegments, trimRight_append_replicate]
  refine ⟨?_, ?_, ?_, rfl, rfl⟩
  · simp only [selectRoute, hseg]
    exact scanRoutes_congr_method foldOrbit
      { Method := m, URL := { Path := P ++ List.replicate k '/', text := u₁ }, ctx := c₁ }
      { Method := m, URL := { Path := P, text := u₂ }, ctx := c₂ } rfl _ _ _
  · rw [trimRight_append_replicate]
  · simp only [AddRoute, List.map_append, List.map_cons, List.map_nil,
      trimRight_append_replicate]

/-! ## Keys and lookups of the captured map -/

theorem mem_keys_mapSet (m : ParamMap) (k v k' : Str) :
    k' ∈ (mapSet m k v).map Prod.fst ↔ k' ∈ m.map Prod.fst ∨ k' = k := by
  simp only [mapSet, List.map_append, List.mem_append, List.mem_map, List.mem_filter,
    List.map_cons, List.map_nil, List.mem_singleton]
  constructor
  · rintro (⟨e, ⟨he, _⟩, hk⟩ | h)
    · exact Or.inl ⟨e, he, hk⟩
    · exact Or.inr h
  · rintro (⟨e, he, hk⟩ | h)
    · by_cases hkk : k' = k
      · exact Or.inr hkk
      · refine Or.inl ⟨e, ⟨he, ?_⟩, hk⟩
        simp only [Bool.not_eq_true', beq_eq_false_iff_ne, ne_eq]
        rw [hk]; exact hkk
    · exact Or.inr h

theorem nodup_keys_mapSet (m : ParamMap) (k v : Str) (h : (m.map Prod.fst).Nodup) :
    ((mapSet m k v).map Prod.fst).Nodup := by
  simp only [mapSet, List.map_append, List.map_cons, List.map_nil]
  rw [List.nodup_append]
  refine ⟨?_, List.nodup_singleton k, ?_⟩
  · exact (List.Nodup.sublist (List.Sublist.map _ (List.filter_sublist _)) h)
  · intro a ha hb
    simp only [List.mem_singleton] at hb
    simp only [List.mem_map, List.mem_filter] at ha
    obtain ⟨e, ⟨_, hne⟩, hk⟩ := ha
    rw [hb] at hk
    simp [hk] at hne

theorem mapGet_mapSet_self (m : ParamMap) (k v : Str) : mapGet (mapSet m k v) k = some v := by
  induction m with
  | nil => simp [mapSet, mapGet]
  | cons e es ih =>
    obtain ⟨k0, v0⟩ := e
    simp only [mapSet] at ih ⊢
    by_cases h : k0 = k
    · simp only [List.filter_cons, h, beq_self_eq_true, Bool.not_true, Bool.false_eq_true,
        if_false]
      exact ih
    · have hb : (!(k0 == k)) = true := by simp [h]
      simp only [List.filter_cons, hb, if_true, List.cons_append, mapGet, h, if_false]
      exact ih

theorem mapGet_mapSet_ne (m : ParamMap) (k' v k : Str) (hne : k' ≠ k) :
    mapGet (mapSet m k' v) k = mapGet m k := by
  induction m with
  | nil => simp [mapSet, mapGet, hne]
  | cons e es ih =>
    obtain ⟨k0, v0⟩ := e
    simp only [mapSet] at ih ⊢
    by_cases h : k0 = k'
    · have hk0 : k0 ≠ k := by rw [h]; exact hne
      simp only [List.filter_cons, h, beq_self_eq_true, Bool.not_true, Bool.false_eq_true,
        if_false, mapGet]
      rw [if_neg hne]
      exact ih
    · have hb : (!(k0 == k')) = true := by simp [h]
      simp only [List.filter_cons, hb, if_true, List.cons_append, mapGet]
      by_cases hk : k0 = k
      · simp [hk]
      · simp only [hk, if_false]
        exact ih

theorem mem_keys_foldl_captureStep : ∀ (l : List (Str × Str)) (acc : ParamMap),
    (∀ p ∈ l, hasPrefix p.1 ':' = true → nonBlank p.2 = true) →
    ∀ k, k ∈ (l.foldl captureStep acc).map Prod.fst ↔
      k ∈ acc.map Prod.fst ∨ ∃ p ∈ l, hasPrefix p.1 ':' = true ∧ trimPrefix p.1 ':' = k := by
  intro l
  induction l with
  | nil => intro acc _ k; simp
  | cons p ps ih =>
    intro acc hall k
    have hall2 : ∀ q ∈ ps, hasPrefix q.1 ':' = true → nonBlank q.2 = true :=
      fun q hq => hall q (List.mem_cons_of_mem _ hq)
    rw [List.foldl_cons, ih _ hall2 k]
    by_cases hp : hasPrefix p.1 ':' = true
    · have hnb := hall p (List.mem_cons_self _ _) hp
      have hstep : captureStep acc p = mapSet acc (trimPrefix p.1 ':') p.2 := by
        simp [captureStep, hp, hnb]
      rw [hstep, mem_keys_mapSet]
      constructor
      · rintro ((h | h) | ⟨q, hq, hqp, hqk⟩)
        · exact Or.inl h
        · exact Or.inr ⟨p, List.mem_cons_self _ _, hp, h.symm⟩
        · exact Or.inr ⟨q, List.mem_cons_of_mem _ hq, hqp, hqk⟩
      · rintro (h | ⟨q, hq, hqp, hqk⟩)
        · exact Or.inl (Or.inl h)
        · rcases List.mem_cons.mp hq with hq | hq
          · subst hq
            exact Or.inl (Or.inr hqk.symm)
          · exact Or.inr ⟨q, hq, hqp, hqk⟩
    · have hstep : captureStep acc p = acc := by
        simp [captureStep, hp]
      rw [hstep]
      constructor
      · rintro (h | ⟨q, hq, hqp, hqk⟩)
        · exact Or.inl h
        · exact Or.inr ⟨q, List.mem_cons_of_mem _ hq, hqp, hqk⟩
      · rintro (h | ⟨q, hq, hqp, hqk⟩)
        · exact Or.inl h
        · rcases List.mem_cons.mp hq with hq | hq
          · subst hq
            exact absurd hqp hp
          · exact Or.inr ⟨q, hq, hqp, hqk⟩

theorem nodup_keys_foldl_captureStep : ∀ (l : List (Str × Str)) (acc : ParamMap),
    (acc.map Prod.fst).Nodup → ((l.foldl captureStep acc).map Prod.fst).Nodup := by
  intro l
  induction l with
  | nil => intro acc h; exact h
  | cons p ps ih =>
    intro acc h
    rw [List.foldl_cons]
    apply ih
    simp only [captureStep]
    split
    · exact nodup_keys_mapSet _ _ _ h
    · exact h

theorem mem_foldl_captureStep : ∀ (l : List (Str × Str)) (acc : ParamMap) (e : Str × Str),
    e ∈ l.foldl captureStep acc →
    e ∈ acc ∨ ∃ p ∈ l, hasPrefix p.1 ':' = true ∧ e = (trimPrefix p.1 ':', p.2) := by
  intro l
  induction l with
  | nil => intro acc e h; exact Or.inl h
  | cons p ps ih =>
    intro acc e h
    rw [List.foldl_cons] at h
    rcases ih _ e h with h | ⟨q, hq, hqp, hqe⟩
    · by_cases hc : (hasPrefix p.1 ':' && nonBlank p.2) = true
      · simp only [captureStep, hc, if_true] at h
        rcases mem_mapSet _ _ _ _ h with h | h
        · exact Or.inl h
        · simp only [Bool.and_eq_true] at hc
          exact Or.inr ⟨p, List.mem_cons_self _ _, hc.1, h⟩
      · simp only [captureStep, hc, Bool.false_eq_true, if_false] at h
        exact Or.inl h
    · exact Or.inr ⟨q, List.mem_cons_of_mem _ hq, hqp, hqe⟩

theorem mem_paramNames_iff (rts reqs : List Str) (hlen : rts.length ≤ reqs.length) (k : Str) :
    (∃ p ∈ rts.zip reqs, hasPrefix p.1 ':' = true ∧ trimPrefix p.1 ':' = k) ↔
      k ∈ paramNames rts := by
  simp only [paramNames, List.mem_map, List.mem_filter]
  constructor
  · rintro ⟨p, hp, hpre, hk⟩
    exact ⟨p.1, ⟨(List.of_mem_zip hp).1, hpre⟩, hk⟩
  · rintro ⟨rt, ⟨hmem, hpre⟩, hk⟩
    obtain ⟨i, hi⟩ := List.mem_iff_getElem?.mp hmem
    have hlt : i < rts.length := (List.getElem?_eq_some.mp hi).1
    have hrq : reqs[i]? = some reqs[i] := List.getElem?_eq_getElem (by omega)
    exact ⟨(rt, reqs[i]), List.getElem?_mem (List.getElem?_zip_eq_some.mpr ⟨hi, hrq⟩), hpre, hk⟩

theorem all_params_nonBlank (fo : Char → Char → Bool) (reqs rts : List Str)
    (hlen : rts.length = reqs.length) (hm : pathMatches fo reqs rts = true) :
    ∀ p ∈ rts.zip reqs, hasPrefix p.1 ':' = true → nonBlank p.2 = true := by
  intro p hp hpre
  exact nonBlank_of_segmentMatches fo p.1 p.2
    ((pathMatches_iff fo reqs rts hlen.symm).mp hm p hp) hpre

/-! ## No leakage between candidates -/

/-- C19 (no leakage between candidates).  When `handle` selects a route `R`,
the keys of the parameter map are exactly the parameter names of `R`, each
once; every entry pairs the name at a parameter position of `R` with the
request segment at that position; and the map is the one `isMatchPath` returns
on the segments of `R` alone, so nothing captured while an earlier candidate
was tested is in it. -/
theorem C19_no_leakage {H : Type} (foldOrbit : Char → Char → Bool) (r : router H)
    (req : Request H) (t : Target H)
    (hsel : selectRoute foldOrbit r req = some (some t)) :
    (∀ k, k ∈ t.paramMap.map Prod.fst ↔ k ∈ paramNames t.route.pathSegments) ∧
    (t.paramMap.map Prod.fst).Nodup ∧
    (∀ e ∈ t.paramMap, ∃ (j : Nat) (rt : Str), t.route.pathSegments[j]? = some rt ∧
      hasPrefix rt ':' = true ∧ e.1 = trimPrefix rt ':' ∧
      (requestSegments req.URL.Path)[j]? = some e.2) ∧
    isMatchPath foldOrbit (requestSegments req.URL.Path) t.route.pathSegments =
      some (true, t.paramMap) ∧
    t.paramMap = capturedMap (requestSegments req.URL.Path) t.route.pathSegments := by
  obtain ⟨_, hpm, hm, _⟩ := (selectRoute_some_iff foldOrbit r req t).mp hsel
  obtain ⟨hlen, hpath, _⟩ := (routeMatches_iff foldOrbit req t.route).mp hm
  have hnb := all_params_nonBlank foldOrbit _ _ hlen hpath
  refine ⟨?_, ?_, ?_, ?_, hpm⟩
  · intro k
    rw [hpm, capturedMap, mem_keys_foldl_captureStep _ [] hnb k,
      mem_paramNames_iff _ _ hlen.le k]
    simp
  · rw [hpm]
    exact nodup_keys_foldl_captureStep _ [] (by simp)
  · intro e he
    rw [hpm] at he
    rcases mem_foldl_captureStep _ [] e he with h | ⟨p, hp, hpre, hpe⟩
    · simp at h
    · obtain ⟨j, hj⟩ := List.mem_iff_getElem?.mp hp
      obtain ⟨hrt, hrq⟩ := List.getElem?_zip_eq_some.mp hj
      refine ⟨j, p.1, hrt, hpre, ?_, ?_⟩
      · rw [hpe]
      · rw [hpe]; exact hrq
  · have hfull := (matchedPairs_full_iff foldOrbit _ _ hlen.symm).mpr
      ((pathMatches_iff foldOrbit _ _ hlen.symm).mp hpath)
    have hsub : (matchedPairs foldOrbit (requestSegments req.URL.Path) t.route.pathSegments).Sublist
        (t.route.pathSegments.zip (requestSegments req.URL.Path)) := List.takeWhile_sublist _
    have heq := hsub.eq_of_length (by rw [hfull]; simp [hlen])
    rw [isMatchPath_eq foldOrbit _ _ hlen.ge, hpm, capturedMap, heq]
    simp [hlen]

/-- Witness for C19: in the table `GET /data/:x/list`, `POST /data/:y/item`,
`GET /data/:id/item`, the request `GET /data/7/item` makes `isMatchPath`
capture `x = 7` on the first route and `y = 7` on the second, both rejected;
the third is selected and its map holds `id = 7` only. -/
theorem C19_no_leakage_witness :
    isMatchPath asciiOrbit (requestSegments "/data/7/item".toList)
        ["".toList, "data".toList, ":x".toList, "list".toList] =
      some (false, [("x".toList, "7".toList)]) ∧
    isMatchPath asciiOrbit (requestSegments "/data/7/item".toList)
        ["".toList, "data".toList, ":y".toList, "item".toList] =
      some (true, [("y".toList, "7".toList)]) ∧
    summary (selectRoute asciiOrbit leakTable (mkRequest "GET" "/data/7/item")) =
      some (some (2, "/data/:id/item".toList, [("id".toList, "7".toList)])) ∧
    ∀ k, k ∈ [("id".toList, "7".toList)].map Prod.fst ↔
      k ∈ paramNames ["".toList, "data".toList, ":id".toList, "item".toList] :=
  ⟨by decide, by decide, rfl,
    (C19_no_leakage asciiOrbit leakTable (mkRequest "GET" "/data/7/item")
      { index := 2
        route := { httpMethod := "GET".toList, path := "/data/:id/item".toList,
                   pathSegments := ["".toList, "data".toList, ":id".toList, "item".toList],
                   handler := 2 }
        paramMap := [("id".toList, "7".toList)] } rfl).1⟩

/-! ## Repeated parameter names -/

theorem mapGet_foldl_captureStep_other : ∀ (l : List (Str × Str)) (acc : ParamMap) (k : Str),
    (∀ p ∈ l, hasPrefix p.1 ':' = true → trimPrefix p.1 ':' ≠ k) →
    mapGet (l.foldl captureStep acc) k = mapGet acc k := by
  intro l
  induction l with
  | nil => intro acc k _; rfl
  | cons p ps ih =>
    intro acc k h
    rw [List.foldl_cons, ih _ k (fun q hq => h q (List.mem_cons_of_mem _ hq))]
    by_cases hc : (hasPrefix p.1 ':' && nonBlank p.2) = true
    · simp only [captureStep, hc, if_true]
      simp only [Bool.and_eq_true] at hc
      exact mapGet_mapSet_ne _ _ _ _ (h p (List.mem_cons_self _ _) hc.1)
    · simp only [captureStep, hc, Bool.false_eq_true, if_false]

theorem mapGet_foldl_captureStep_last : ∀ (l : List (Str × Str)) (acc : ParamMap) (j : Nat)
    (p : Str × Str), l[j]? = some p → hasPrefix p.1 ':' = true → nonBlank p.2 = true →
    (∀ (j' : Nat) (q : Str × Str), j < j' → l[j']? = some q → hasPrefix q.1 ':' = true →
      trimPrefix q.1 ':' ≠ trimPrefix p.1 ':') →
    mapGet (l.foldl captureStep acc) (trimPrefix p.1 ':') = some p.2 := by
  intro l
  induction l with
  | nil => intro acc j p h; simp at h
  | cons x xs ih =>
    intro acc j p hj hpre hnb hlast
    rw [List.foldl_cons]
    cases j with
    | zero =>
      simp only [List.getElem?_cons_zero, Option.some.injEq] at hj
      subst hj
      rw [mapGet_foldl_captureStep_other]
      · simp only [captureStep, hpre, hnb, Bool.and_self, if_true]
        exact mapGet_mapSet_self _ _ _
      · intro q hq hqp
        obtain ⟨i, hi⟩ := List.mem_iff_getElem?.mp hq
        exact hlast (i + 1) q (by omega) (by simpa using hi) hqp
    | succ j =>
      simp only [List.getElem?_cons_succ] at hj
      apply ih _ j p hj hpre hnb
      intro j' q hjj hq hqp
      exact hlast (j' + 1) q (by omega) (by simpa using hq) hqp

theorem mem_of_mapGet : ∀ (l : ParamMap) (k v : Str), mapGet l k = some v → (k, v) ∈ l := by
  intro l
  induction l with
  | nil => intro k v h; simp [mapGet] at h
  | cons e es ih =>
    intro k v h
    obtain ⟨k0, v0⟩ := e
    simp only [mapGet] at h
    by_cases hk : k0 = k
    · rw [if_pos hk] at h
      simp only [Option.some.injEq] at h
      simp [hk, h]
    · rw [if_neg hk] at h
      exact List.mem_cons_of_mem _ (ih k v h)

theorem filter_key_eq_singleton : ∀ (l : ParamMap) (k v : Str), (l.map Prod.fst).Nodup →
    (k, v) ∈ l → l.filter (fun e => decide (e.1 = k)) = [(k, v)] := by
  intro l
  induction l with
  | nil => intro k v _ h; simp at h
  | cons e es ih =>
    intro k v hnd hmem
    obtain ⟨k0, v0⟩ := e
    simp only [List.map_cons, List.nodup_cons] at hnd
    rcases List.mem_cons.mp hmem with h | h
    · simp only [Prod.mk.injEq] at h
      obtain ⟨hk, hv⟩ := h
      subst hk; subst hv
      have hnone : es.filter (fun e => decide (e.1 = k)) = [] := by
        rw [List.filter_eq_nil_iff]
        intro e he hek
        simp only [decide_eq_true_eq] at hek
        apply hnd.1
        rw [← hek]
        exact List.mem_map.mpr ⟨e, he, rfl⟩
      simp [List.filter_cons, hnone]
    · have hne : k0 ≠ k := by
        intro hk
        apply hnd.1
        rw [hk]
        exact List.mem_map.mpr ⟨(k, v), h, rfl⟩
      simp only [List.filter_cons, hne, decide_False, Bool.false_eq_true, if_false]
      exact ih k v hnd.2 h

/-- C20 (repeated parameter names keep the last value).  When `handle` selects
a route and `j` is the last position at which the route has a parameter
segment of a given name, the lookup of that name in the parameter map gives the
request segment at position `j`, and the map holds exactly one entry under
that name, with that value; earlier positions of the same name are
overwritten. -/
theorem C20_repeated_names_keep_last {H : Type} (foldOrbit : Char → Char → Bool) (r : router H)
    (req : Request H) (t : Target H) (j : Nat) (rt rq : Str)
    (hsel : selectRoute foldOrbit r req = some (some t))
    (hrt : t.route.pathSegments[j]? = some rt)
    (hrq : (requestSegments req.URL.Path)[j]? = some rq)
    (hparam : hasPrefix rt ':' = true)
    (hlast : ∀ (j' : Nat) (rt' : Str), j < j' → t.route.pathSegments[j']? = some rt' →
      hasPrefix rt' ':' = true → trimPrefix rt' ':' ≠ trimPrefix rt ':') :
    mapGet t.paramMap (trimPrefix rt ':') = some rq ∧
    t.paramMap.filter (fun e => decide (e.1 = trimPrefix rt ':')) = [(trimPrefix rt ':', rq)] := by
  obtain ⟨_, hpm, hm, _⟩ := (selectRoute_some_iff foldOrbit r req t).mp hsel
  obtain ⟨hlen, hpath, _⟩ := (routeMatches_iff foldOrbit req t.route).mp hm
  have hnb := all_params_nonBlank foldOrbit _ _ hlen hpath
  have hz : (t.route.pathSegments.zip (requestSegments req.URL.Path))[j]? = some (rt, rq) :=
    List.getElem?_zip_eq_some.mpr ⟨hrt, hrq⟩
  have hget : mapGet t.paramMap (trimPrefix rt ':') = some rq := by
    rw [hpm, capturedMap]
    apply mapGet_foldl_captureStep_last _ [] j (rt, rq) hz hparam
      (hnb (rt, rq) (List.getElem?_mem hz) hparam)
    intro j' q hjj hq hqp
    exact hlast j' q.1 hjj (List.getElem?_zip_eq_some.mp hq).1 hqp
  refine ⟨hget, ?_⟩
  apply filter_key_eq_singleton _ _ _ _ (mem_of_mapGet _ _ _ hget)
  rw [hpm]
  exact nodup_keys_foldl_captureStep _ [] (by simp)

/-- Witness for C20: the route `GET /:id/:id` and the request `GET /a/b`; the
map holds `id = "b"`, the segment at the last position named `id`. -/
theorem C20_repeated_names_keep_last_witness :
    summary (selectRoute asciiOrbit repeatTable (mkRequest "GET" "/a/b")) =
      some (some (0, "/:id/:id".toList, [("id".toList, "b".toList)])) ∧
    mapGet [("id".toList, "b".toList)] (trimPrefix ":id".toList ':') = some "b".toList ∧
    [("id".toList, "b".toList)].filter (fun e => decide (e.1 = trimPrefix ":id".toList ':')) =
      [(trimPrefix ":id".toList ':', "b".toList)] :=
  ⟨rfl,
    C20_repeated_names_keep_last asciiOrbit repeatTable (mkRequest "GET" "/a/b")
      { index := 0
        route := { httpMethod := "GET".toList, path := "/:id/:id".toList,
                   pathSegments := ["".toList, ":id".toList, ":id".toList], handler := 0 }
        paramMap := [("id".toList, "b".toList)] } 2 ":id".toList "b".toList
      rfl rfl rfl rfl
      (by
        intro j' rt' hj h
        have : j' < 3 := (List.getElem?_eq_some.mp h).1
        omega)⟩

end GoRouter
